import Mathlib

/-!
# blobstash: router, meta-blob bridge, sort index and filetree

A shallow embedding of

* `backend/router.go` (`Router.Route`, `checkRule`, `Router.ResolveBackends`, the
  routing done by `Router.Put`/`Get`/`Exists`/`Enumerate`),
* `pkg/kvstore/kvstore.go` (`KvStore.Put`, `KvStore.applyMetaFunc`),
* `pkg/docstore/index.go` (`buildVal`, `parseVal`, `buildKey`, `sortIndex.Index`,
  `sortIndex.Iter`),
* `ext/filetree/filetree.go` (`FileTreeExt.fetchDir`, `nodeByRef`, `metaToNode`),

followed by the theorems that settle the specification's claims about them.

Conventions.  A Go `string` is a Lean `String` (valid Unicode text), a `[]byte` is a
`List Nat`, an `int64` is an `Int` (reduced modulo `2^64` where the source converts).
The keys and the string field values of the sort index are Go strings that hold
arbitrary bytes; they are kept as their bytes.
A Go panic is an `Except.error` carrying the kind of panic.  Calls into collaborators
whose code is outside the embedded files are fields of a record of operations over an
abstract store, and every such call is logged in a trace.
-/

namespace Blobstash

deriving instance DecidableEq for Except

/-! ## Go library functions used by the router -/

/-- Go `strings.HasPrefix(s, prefix)`. -/
def HasPrefix (s pre : String) : Bool :=
  pre.data.isPrefixOf s.data

/-- Worker of `Replace` on rune lists: the first occurrence of `old` (scanning from the
left) is replaced by `new`, like `strings.Replace(s, old, new, 1)`. -/
def replaceFirst (old new : List Char) : List Char → List Char
  | [] => if old.isPrefixOf [] then new else []
  | c :: cs =>
    if old.isPrefixOf (c :: cs) then new ++ (c :: cs).drop old.length
    else c :: replaceFirst old new cs

/-- Go `strings.Replace(s, old, new, 1)`, the only form the router uses. -/
def Replace1 (s old new : String) : String :=
  ⟨replaceFirst old.data new.data s.data⟩

/-- Go `strings.ToLower(s)`: every rune is mapped through `unicode.ToLower`, which is
the parameter `lower` (its table is not part of the repository). -/
def ToLower (lower : Char → Char) (s : String) : String :=
  ⟨s.data.map lower⟩

/-- Go `strings.Contains(s, substr)`. -/
def Contains (s substr : String) : Bool :=
  s.data.tails.any (fun t => substr.data.isPrefixOf t)

/-! ## simplejson values -/

/-- A decoded JSON value, the payload of a `*simplejson.Json`. -/
inductive Json where
  | null : Json
  | bool (b : Bool) : Json
  | num (n : Int) : Json
  | str (s : String) : Json
  | arr (xs : List Json) : Json
  | obj (kvs : List (String × Json)) : Json

namespace Json

/-- Go `(*Json).Array`: the elements when the value is an array, `none` for the error. -/
def Array : Json → Option (List Json)
  | arr xs => some xs
  | _ => none

/-- Go `(*Json).GetIndex(i)`: the element at `i` of an array, a `null` value otherwise. -/
def GetIndex (j : Json) (i : Nat) : Json :=
  match j.Array with
  | some a => if a.length > i then a.getD i null else null
  | none => null

/-- Go `(*Json).MustString()`: the string, or `""` when the value is not a string. -/
def MustString : Json → String
  | str s => s
  | _ => ""

/-- Loop of `(*Json).StringArray`: `null` elements become `""`, any other non-string
element is the error. -/
def stringsOf : List Json → Option (List String)
  | [] => some []
  | null :: rest => (stringsOf rest).map (fun l => "" :: l)
  | str s :: rest => (stringsOf rest).map (fun l => s :: l)
  | _ :: _ => none

/-- Go `(*Json).StringArray`. -/
def StringArray (j : Json) : Option (List String) :=
  match j.Array with
  | some a => stringsOf a
  | none => none

end Json

/-! ## backend/router.go -/

/-- Request type `Read`. -/
def Read : Int := 0

/-- Request type `Write`. -/
def Write : Int := 1

/-- Go `Request`: the fields used for routing; the field `Type` is spelled `ReqType`. -/
structure Request where
  ReqType : Int
  MetaBlob : Bool
  Host : String
deriving DecidableEq, Repr

/-- Go `Router`, with `β` the type of the registered blob handlers. -/
structure Router (β : Type) where
  Rules : List Json
  Host : String
  Backends : List (String × β)

/-- The panics `Route` and its callers can raise. -/
inductive Panic where
  /-- `failed to parse rule "%v"`, raised by `checkRule`. -/
  | parseRule (rule : String) : Panic
  /-- `bad rule %v`, raised by `Route` when the predicates are not a string array. -/
  | badRule : Panic
  /-- A Go runtime panic: index out of range or a failed type assertion. -/
  | runtime : Panic
  /-- `backend %v is not registered`. -/
  | notRegistered (key : String) : Panic
deriving DecidableEq, Repr

/-- Go `checkRule`: does the rule match the request. -/
def checkRule (lower : Char → Char) (rule : String) (req : Request) : Except Panic Bool :=
  if rule = "if-meta" then
    if req.MetaBlob then .ok true else .ok false
  else if HasPrefix rule "if-host-" then
    let host := Replace1 rule "if-host-" ""
    if ToLower lower req.Host = ToLower lower host then .ok true else .ok false
  else if rule = "default" then
    .ok true
  else
    .error (.parseRule rule)

/-- The inner loop of `Route` over the predicates of a conjunctive rule: every
predicate is checked, `match` drops to false at the first one that does not hold. -/
def checkSubRules (lower : Char → Char) (req : Request) :
    List String → Bool → Except Panic Bool
  | [], m => .ok m
  | rule :: rest, m =>
    match checkRule lower rule req with
    | .error e => .error e
    | .ok b => checkSubRules lower req rest (if !b && m then false else m)

/-- One iteration of the loop of `Route`: `some backend` when the rule returns,
`none` when the loop goes on to the next rule. -/
def routeRule (lower : Char → Char) (baseRule : Json) (req : Request) :
    Except Panic (Option String) :=
  match baseRule.Array with
  | none => .error .runtime
  | some [] => .error .runtime
  | some (Json.str rule :: tl) =>
    match tl with
    | Json.str backend :: _ =>
      match checkRule lower rule req with
      | .error e => .error e
      | .ok true => .ok (some backend)
      | .ok false => .ok none
    | _ => .error .runtime
  | some (_ :: _) =>
    let backend := (baseRule.GetIndex 1).MustString
    match (baseRule.GetIndex 0).StringArray with
    | none => .error .badRule
    | some subRules =>
      match checkSubRules lower req subRules true with
      | .error e => .error e
      | .ok true => .ok (some backend)
      | .ok false => .ok none

/-- The loop of `Route` over the rules. -/
def routeRules (lower : Char → Char) (req : Request) : List Json → Except Panic String
  | [] => .ok ""
  | baseRule :: rest =>
    match routeRule lower baseRule req with
    | .error e => .error e
    | .ok (some backend) => .ok backend
    | .ok none => routeRules lower req rest

/-- Go `Router.Route`: the backend key that matches the request. -/
def Router.Route {β : Type} (lower : Char → Char) (router : Router β) (req : Request) :
    Except Panic String :=
  routeRules lower req router.Rules

/-- The common part of `Router.Put`, `Get`, `Exists` and `Enumerate`: the request type
is overwritten with `ty`, the request is routed and the handler registered under the
key is looked up; the handler's own method is then called by the caller. -/
def Router.dispatch {β : Type} (lower : Char → Char) (router : Router β) (ty : Int)
    (req : Request) : Except Panic β :=
  match router.Route lower { req with ReqType := ty } with
  | .error e => .error e
  | .ok key =>
    match router.Backends.lookup key with
    | some backend => .ok backend
    | none => .error (.notRegistered key)

/-- One iteration of the loop of `ResolveBackends`. -/
def resolveRule (baseRule : Json) : Except Panic String :=
  match baseRule.Array with
  | none => .error .runtime
  | some [] => .error .runtime
  | some (Json.str _ :: tl) =>
    match tl with
    | Json.str backend :: _ => .ok backend
    | _ => .error .runtime
  | some (_ :: _) => .ok (baseRule.GetIndex 1).MustString

/-- The loop of `ResolveBackends`, with the slice built so far. -/
def resolveRules : List Json → List String → Except Panic (List String)
  | [], backends => .ok backends
  | baseRule :: rest, backends =>
    match resolveRule baseRule with
    | .error e => .error e
    | .ok b => resolveRules rest (backends ++ [b])

/-- Go `Router.ResolveBackends`: the backend keys found by inspecting the rules. -/
def Router.ResolveBackends {β : Type} (router : Router β) : Except Panic (List String) :=
  resolveRules router.Rules []

/-! ## The router as the specification words it -/

/-- A rule of the configuration: a basic rule `[predicate, backend]` or a conjunctive
rule `[[predicate...], backend]`, predicates and backend key being text. -/
inductive Rule where
  | basic (pred : String) (backend : String) : Rule
  | conj (preds : List String) (backend : String) : Rule
deriving DecidableEq, Repr

/-- The predicates of a rule. -/
def Rule.preds : Rule → List String
  | .basic p _ => [p]
  | .conj ps _ => ps

/-- The backend key a rule names. -/
def Rule.backend : Rule → String
  | .basic _ b => b
  | .conj _ b => b

/-- The JSON form of a rule held in `Router.Rules`: a two-element array. -/
def Rule.toJson : Rule → Json
  | .basic p b => .arr [.str p, .str b]
  | .conj ps b => .arr [.arr (ps.map Json.str), .str b]

/-- The predicate grammar: `default`, `if-meta` or `if-host-<hostname>`. -/
def KnownPred (p : String) : Prop :=
  p = "default" ∨ p = "if-meta" ∨ ∃ h : String, p = "if-host-" ++ h

/-- The predicate grammar, decided. -/
def isKnownPred (p : String) : Bool :=
  decide (p = "default") || decide (p = "if-meta") || HasPrefix p "if-host-"

/-- The predicate semantics of the specification: `default` always holds, `if-meta`
holds for meta blobs, `if-host-<h>` holds when `h` and the request host are equal up to
letter case. -/
def PredHolds (lower : Char → Char) (p : String) (req : Request) : Prop :=
  p = "default" ∨ (p = "if-meta" ∧ req.MetaBlob = true) ∨
    ∃ h : String, p = "if-host-" ++ h ∧ ToLower lower h = ToLower lower req.Host

/-- The predicate semantics of the specification, decided. -/
def predHolds (lower : Char → Char) (p : String) (req : Request) : Bool :=
  decide (p = "default") || (decide (p = "if-meta") && req.MetaBlob) ||
    (HasPrefix p "if-host-" &&
      decide (ToLower lower ⟨p.data.drop 8⟩ = ToLower lower req.Host))

/-- A rule matches when every one of its predicates holds. -/
def ruleMatches (lower : Char → Char) (req : Request) (r : Rule) : Bool :=
  r.preds.all (fun p => predHolds lower p req)

/-- First match wins: the backend key of the first matching rule, `""` when none. -/
def firstMatch (lower : Char → Char) (rules : List Rule) (req : Request) : String :=
  match rules.find? (ruleMatches lower req) with
  | some r => r.backend
  | none => ""

/-- The walk over the rules in one pass: a rule holding a predicate outside the grammar
fails the call with the panic of `checkRule` for the first such predicate, a rule whose
predicates all hold returns its backend key, any other rule is passed over. -/
def walkRules (lower : Char → Char) (req : Request) : List Rule → Except Panic String
  | [] => .ok ""
  | r :: rest =>
    match r.preds.find? (fun p => !isKnownPred p) with
    | some p => .error (.parseRule p)
    | none => if ruleMatches lower req r then .ok r.backend else walkRules lower req rest

/-- Two runes are the same ASCII letter up to case, or the same rune. -/
def sameLetter (a b : Char) : Prop :=
  a = b ∨ (65 ≤ a.toNat ∧ a.toNat ≤ 90 ∧ b.toNat = a.toNat + 32) ∨
    (65 ≤ b.toNat ∧ b.toNat ≤ 90 ∧ a.toNat = b.toNat + 32)

/-- Equality of two texts ignoring ASCII letter case. -/
def EqIgnoreCase (s t : String) : Prop :=
  List.Forall₂ sameLetter s.data t.data

/-- The text is ASCII. -/
def IsASCII (s : String) : Prop :=
  ∀ c ∈ s.data, c.toNat < 128

instance (s : String) : Decidable (IsASCII s) :=
  inferInstanceAs (Decidable (∀ c ∈ s.data, c.toNat < 128))

/-- The rules of scenario C. -/
def scenarioRules : List Rule :=
  [.conj ["if-meta", "if-host-srvA"] "X", .conj ["default"] "Y"]

/-- Two rules naming the same backend. -/
def sharedBackendRules : List Rule :=
  [.basic "default" "X", .basic "if-meta" "X"]

/-! ## pkg/kvstore/kvstore.go -/

/-- Go `error` values met by the key-value store. -/
inductive Err where
  /-- `ErrInvalidKey`: `/ is a forbidden character for keys`. -/
  | ErrInvalidKey : Err
  /-- An error returned by a collaborator (VKV, meta handler, blob store). -/
  | collab (code : Nat) : Err
  /-- `fmt.Errorf(msg + ": %v", err)`. -/
  | wrap (msg : String) (err : Err) : Err
deriving DecidableEq, Repr

/-- Modelled from the spec: the record `vkv.KeyValue` (its declaration is outside the
sources), a tuple `(key, version, data, ref?)` whose `ref` is kept as the hash bytes. -/
structure KeyValue where
  Key : String
  Version : Int
  Data : List Nat
  Hash : List Nat
deriving DecidableEq, Repr

/-- Modelled from the spec: a blob (`blob.Blob`, declared outside the sources), the hex
of its content hash and its bytes. -/
structure Blob where
  Hash : String
  Data : List Nat
deriving DecidableEq, Repr

/-- A call made by the key-value store to one of its collaborators, with the
arguments passed and the outcome. -/
inductive Event where
  | vkvPut (kv : KeyValue) (out : Except Err KeyValue) : Event
  | metaBuild (kv : KeyValue) (out : Except Err Blob) : Event
  | vkvSetMetaBlob (key : String) (version : Int) (hash : String) (err : Option Err) : Event
  | vkvGetMetaBlob (key : String) (version : Int) (out : Except Err String) : Event
  | blobStorePut (b : Blob) (err : Option Err) : Event
deriving DecidableEq

/-- The error a call ended with, if any. -/
def Event.err : Event → Option Err
  | .vkvPut _ (.error e) => some e
  | .vkvPut _ (.ok _) => none
  | .metaBuild _ (.error e) => some e
  | .metaBuild _ (.ok _) => none
  | .vkvSetMetaBlob _ _ _ e => e
  | .vkvGetMetaBlob _ _ (.error e) => some e
  | .vkvGetMetaBlob _ _ (.ok _) => none
  | .blobStorePut _ e => e

/-- The collaborators of `KvStore` (`kv.vkv`, `kv.meta`, `kv.blobStore` and the helpers
of package `vkv`), whose code is outside the sources: operations over a store `σ` that
return their Go result and the store they leave.  `vkvPut` receives the record by
pointer and returns it as the call leaves it. -/
structure Collab (σ : Type) where
  vkvPut : σ → KeyValue → Except Err KeyValue × σ
  vkvSetMetaBlob : σ → String → Int → String → Option Err × σ
  vkvGetMetaBlob : σ → String → Int → Except Err String × σ
  metaBuild : σ → KeyValue → Except Err Blob × σ
  blobStorePut : σ → Blob → Option Err × σ
  UnserializeBlob : List Nat → Except Err KeyValue
  hexDecode : String → Option (List Nat)
  hexEncode : List Nat → String

/-- What a method of `KvStore` leaves: its Go result, the store and the calls made to
the collaborators, in order. -/
structure Run (σ α : Type) where
  result : Except Err α
  store : σ
  trace : List Event

/-- Go `(*KeyValue).SetHexHash(ref)`: the hash is replaced when `ref` decodes, the error
of a failed decoding is dropped by the caller. -/
def KeyValue.SetHexHash {σ : Type} (c : Collab σ) (kv : KeyValue) (ref : String) : KeyValue :=
  match c.hexDecode ref with
  | some h => { kv with Hash := h }
  | none => kv

/-- Go `(*KeyValue).HexHash()`. -/
def KeyValue.HexHash {σ : Type} (c : Collab σ) (kv : KeyValue) : String :=
  c.hexEncode kv.Hash

/-- The record `KvStore.Put` builds before calling the VKV store. -/
def KvStore.newRecord {σ : Type} (c : Collab σ) (key ref : String) (data : List Nat)
    (version : Int) : KeyValue :=
  let res : KeyValue := { Key := key, Version := version, Data := data, Hash := [] }
  if ref ≠ "" then res.SetHexHash c ref else res

/-- Go `KvStore.Put`. -/
def KvStore.Put {σ : Type} (c : Collab σ) (s : σ) (key ref : String) (data : List Nat)
    (version : Int) : Run σ KeyValue :=
  if Contains key "/" then
    ⟨.error .ErrInvalidKey, s, []⟩
  else
    let res0 := KvStore.newRecord c key ref data version
    match c.vkvPut s res0 with
    | (.error e, s1) => ⟨.error e, s1, [.vkvPut res0 (.error e)]⟩
    | (.ok res, s1) =>
      match c.metaBuild s1 res with
      | (.error e, s2) => ⟨.error e, s2, [.vkvPut res0 (.ok res), .metaBuild res (.error e)]⟩
      | (.ok metaBlob, s2) =>
        match c.vkvSetMetaBlob s2 key res.Version metaBlob.Hash with
        | (some e, s3) =>
          ⟨.error e, s3, [.vkvPut res0 (.ok res), .metaBuild res (.ok metaBlob),
            .vkvSetMetaBlob key res.Version metaBlob.Hash (some e)]⟩
        | (none, s3) =>
          match c.blobStorePut s3 metaBlob with
          | (some e, s4) =>
            ⟨.error e, s4, [.vkvPut res0 (.ok res), .metaBuild res (.ok metaBlob),
              .vkvSetMetaBlob key res.Version metaBlob.Hash none,
              .blobStorePut metaBlob (some e)]⟩
          | (none, s4) =>
            ⟨.ok res, s4, [.vkvPut res0 (.ok res), .metaBuild res (.ok metaBlob),
              .vkvSetMetaBlob key res.Version metaBlob.Hash none,
              .blobStorePut metaBlob none]⟩

set_option linter.unusedVariables false in
/-- Go `KvStore.applyMetaFunc`; the debug log lines, the only use of `hash`, are left out. -/
def KvStore.applyMetaFunc {σ : Type} (c : Collab σ) (s : σ) (hash : String)
    (data : List Nat) : Run σ Unit :=
  match c.UnserializeBlob data with
  | .error e => ⟨.error (.wrap "failed to unserialize blob" e), s, []⟩
  | .ok rkv =>
    match c.vkvGetMetaBlob s rkv.Key rkv.Version with
    | (.error e, s1) => ⟨.error e, s1, [.vkvGetMetaBlob rkv.Key rkv.Version (.error e)]⟩
    | (.ok metaBlobHash, s1) =>
      if metaBlobHash ≠ "" then
        ⟨.ok (), s1, [.vkvGetMetaBlob rkv.Key rkv.Version (.ok metaBlobHash)]⟩
      else
        let r := KvStore.Put c s1 rkv.Key (rkv.HexHash c) rkv.Data rkv.Version
        match r.result with
        | .error e =>
          ⟨.error (.wrap "failed to put" e), r.store,
            .vkvGetMetaBlob rkv.Key rkv.Version (.ok metaBlobHash) :: r.trace⟩
        | .ok _ =>
          ⟨.ok (), r.store, .vkvGetMetaBlob rkv.Key rkv.Version (.ok metaBlobHash) :: r.trace⟩

/-! ### An in-memory store for concrete runs -/

/-- An in-memory VKV store and blob store. -/
structure MemStore where
  records : List KeyValue
  metas : List ((String × Int) × String)
  blobs : List Blob
deriving DecidableEq

/-- The empty in-memory store. -/
def MemStore.empty : MemStore := ⟨[], [], []⟩

/-- Collaborators over the in-memory store: every write succeeds and is recorded, a meta
blob holds the data of its record under the key of the record, and its hash is the text
`meta:` followed by the key. -/
def memCollab : Collab MemStore where
  vkvPut s kv := (.ok kv, { s with records := kv :: s.records })
  vkvSetMetaBlob s key version hash :=
    (none, { s with metas := ((key, version), hash) :: s.metas })
  vkvGetMetaBlob s key version := (.ok ((s.metas.lookup (key, version)).getD ""), s)
  metaBuild s kv := (.ok ⟨"meta:" ++ kv.Key, kv.Data⟩, s)
  blobStorePut s b := (none, { s with blobs := b :: s.blobs })
  UnserializeBlob data := .ok { Key := "k", Version := 1, Data := data, Hash := [] }
  hexDecode _ := none
  hexEncode _ := ""

/-- Collaborators over the in-memory store whose VKV `Put` fails. -/
def failingCollab : Collab MemStore :=
  { memCollab with vkvPut := fun s _ => (.error (.collab 1), s) }

/-! ## pkg/docstore/index.go: the values of the sort index -/

/-- Modelled from the spec: the document id of package `docstore/id` (outside the
sources), a 12-byte opaque value `data` to which a flag byte, a version and a transient
cursor are attached. -/
structure ID where
  data : List Nat
  flag : Nat
  version : Int
  cursor : String
deriving DecidableEq, Repr

/-- Modelled from the spec: `(*ID).Raw()`, the raw bytes of the id. -/
def ID.Raw (i : ID) : List Nat := i.data

/-- Modelled from the spec: `id.FromRaw`, the id made of raw bytes, nothing attached. -/
def FromRaw (data : List Nat) : ID := ⟨data, 0, 0, ""⟩

/-- Go `uint64(v)` of an `int64`. -/
def uint64 (v : Int) : Nat := (v % 2 ^ 64).toNat

/-- Go `int64(u)` of a `uint64`. -/
def int64 (u : Nat) : Int := if u < 2 ^ 63 then (u : Int) else (u : Int) - 2 ^ 64

/-- Go `binary.BigEndian.PutUint64(b, v)` on a slice of at least 8 bytes (all its uses
here): the first 8 bytes are overwritten, most significant byte first. -/
def PutUint64 (b : List Nat) (v : Nat) : List Nat :=
  [v / 2 ^ 56 % 256, v / 2 ^ 48 % 256, v / 2 ^ 40 % 256, v / 2 ^ 32 % 256,
    v / 2 ^ 24 % 256, v / 2 ^ 16 % 256, v / 2 ^ 8 % 256, v % 256] ++ b.drop 8

/-- Go `binary.BigEndian.Uint64(b)`: the value of the first 8 bytes, `none` for the panic
on a shorter slice. -/
def Uint64 : List Nat → Option Nat
  | b0 :: b1 :: b2 :: b3 :: b4 :: b5 :: b6 :: b7 :: _ =>
    some (b7 + b6 * 2 ^ 8 + b5 * 2 ^ 16 + b4 * 2 ^ 24 + b3 * 2 ^ 32 + b2 * 2 ^ 40
      + b1 * 2 ^ 48 + b0 * 2 ^ 56)
  | _ => none

/-- Go `copy(dst, src)`: the slice `dst` after the copy. -/
def copy (dst src : List Nat) : List Nat :=
  src.take dst.length ++ dst.drop src.length

/-- The 8-byte big-endian encoding of a number: byte `i` is its digit `7 - i` in base
256. -/
def bigEndian8 (n : Nat) : List Nat :=
  (List.range 8).map (fun i => n / 256 ^ (7 - i) % 256)

/-- Go `buildVal`. -/
def buildVal (start : Int) (_id : ID) : List Nat :=
  let v := List.replicate 20 0
  let v := PutUint64 v (uint64 start)
  v.take 8 ++ copy (v.drop 8) _id.Raw

/-- Go `parseVal`; `none` stands for the panic on a value shorter than 8 bytes. -/
def parseVal (d : List Nat) : Option (Int × ID) :=
  match Uint64 (d.take 8) with
  | some u => some (int64 u, FromRaw (d.drop 8))
  | none => none

/-! ## pkg/docstore/index.go: the keys of the sort index -/

/-- A field value of a document, a Go `interface{}`, by dynamic type.  A Go string is
kept as its bytes, a float as its IEEE 754 binary64 bits (for a `float32`, the bits of
the value widened to `float64`); `other` stands for `nil` and every other type. -/
inductive Value where
  | string (vv : List Nat) : Value
  | int (vv : Int) : Value
  | int8 (vv : Int) : Value
  | int16 (vv : Int) : Value
  | int32 (vv : Int) : Value
  | int64 (vv : Int) : Value
  | uint8 (vv : Nat) : Value
  | uint16 (vv : Nat) : Value
  | uint32 (vv : Nat) : Value
  | uint64 (vv : Nat) : Value
  | float32 (bits : Nat) : Value
  | float64 (bits : Nat) : Value
  | slice : Value
  | other : Value
deriving DecidableEq, Repr

/-- Errors and panics of the sort index. -/
inductive IxErr where
  /-- The sentinel `vkv.ErrNotFound`. -/
  | ErrNotFound : IxErr
  /-- Any other error returned by the store. -/
  | db (code : Nat) : IxErr
  /-- The error `_id should match the old version key`. -/
  | idMismatch : IxErr
  /-- An error of `base64.URLEncoding.DecodeString`. -/
  | base64 : IxErr
  /-- A Go panic, with its message. -/
  | panic (msg : String) : IxErr
deriving DecidableEq, Repr

/-- Go `rand.Read(b)`: the bytes `rnd` that the random source delivers are written over
`b`; the read fails when they do not fill `b`. -/
def randRead (b rnd : List Nat) : Option (List Nat) :=
  if rnd.length < b.length then none else some (copy b rnd)

/-- Go `buildUint64Key`. -/
def buildUint64Key (v : Nat) : List Nat :=
  let k := List.replicate 16 0
  let k := copy k [107, 58]
  k.take 2 ++ PutUint64 (k.drop 2) v

/-- The type switch of `buildKey`: the slice `k` and `klen`, or the panic. -/
def buildKeySwitch : Value → Except IxErr (List Nat × Nat)
  | .string vv =>
    let klen := vv.length
    let k := List.replicate (klen + 8) 0
    let k := copy k [107, 58]
    .ok (k.take 2 ++ copy (k.drop 2) (vv ++ [58]), klen)
  | .int vv => .ok (buildUint64Key (uint64 vv), 8)
  | .int8 vv => .ok (buildUint64Key (uint64 vv), 8)
  | .int16 vv => .ok (buildUint64Key (uint64 vv), 8)
  | .int32 vv => .ok (buildUint64Key (uint64 vv), 8)
  | .int64 vv => .ok (buildUint64Key (uint64 vv), 8)
  | .uint8 vv => .ok (buildUint64Key vv, 8)
  | .uint16 vv => .ok (buildUint64Key vv, 8)
  | .uint32 vv => .ok (buildUint64Key vv, 8)
  | .uint64 vv => .ok (buildUint64Key vv, 8)
  | .float32 bits => .ok (buildUint64Key bits, 8)
  | .float64 bits => .ok (buildUint64Key bits, 8)
  | .slice => .error (.panic "TODO support slice")
  | .other => .error (.panic "should not happen")

/-- Go `buildKey`, with the bytes `rnd` delivered by the random source. -/
def buildKey (v : Value) (rnd : List Nat) : Except IxErr (List Nat) :=
  match buildKeySwitch v with
  | .error e => .error e
  | .ok (k, klen) =>
    match randRead (k.drop (klen + 3)) rnd with
    | none => .error (.panic "failed to build key")
    | some suffix => .ok (k.take (klen + 3) ++ suffix)

/-- Go `buildLastVersionKey`. -/
def buildLastVersionKey (_id : ID) : List Nat :=
  let k := List.replicate 14 0
  let k := copy k [118, 58]
  k.take 2 ++ copy (k.drop 2) _id.Raw

/-- Byte-wise lexicographic order of Go strings and byte slices, the order of the keys
of the store (`bytes.Compare(a, b) < 0`). -/
def lexLt : List Nat → List Nat → Bool
  | _, [] => false
  | [], _ :: _ => true
  | a :: as, b :: bs => a < b || (a == b && lexLt as bs)

/-- The integer a field value of an integer type holds. -/
def Value.intVal : Value → Option Int
  | .int vv => some vv
  | .int8 vv => some vv
  | .int16 vv => some vv
  | .int32 vv => some vv
  | .int64 vv => some vv
  | .uint8 vv => some (vv : Int)
  | .uint16 vv => some (vv : Int)
  | .uint32 vv => some (vv : Int)
  | .uint64 vv => some (vv : Int)
  | _ => none

/-- The 64-bit image `buildKey` stores for a numeric field value. -/
def Value.image : Value → Option Nat
  | .int vv => some (Blobstash.uint64 vv)
  | .int8 vv => some (Blobstash.uint64 vv)
  | .int16 vv => some (Blobstash.uint64 vv)
  | .int32 vv => some (Blobstash.uint64 vv)
  | .int64 vv => some (Blobstash.uint64 vv)
  | .uint8 vv => some (vv % 2 ^ 64)
  | .uint16 vv => some (vv % 2 ^ 64)
  | .uint32 vv => some (vv % 2 ^ 64)
  | .uint64 vv => some (vv % 2 ^ 64)
  | .float32 bits => some (bits % 2 ^ 64)
  | .float64 bits => some (bits % 2 ^ 64)
  | _ => none

/-- The default start of `Iter`, the Go string `"k:\xff"`. -/
def defaultStart : List Nat := [107, 58, 255]

/-! ## pkg/docstore/index.go: `Index` and `Iter` -/

/-- Modelled from the spec: `(*ID).Version()`, the version attached to the id. -/
def ID.Version (i : ID) : Int := i.version

/-- Modelled from the spec: `(*ID).Flag()`, the flag byte attached to the id. -/
def ID.Flag (i : ID) : Nat := i.flag

/-- Modelled from the spec: `(*ID).SetVersion`. -/
def ID.SetVersion (i : ID) (v : Int) : ID := { i with version := v }

/-- Modelled from the spec: `(*ID).SetCursor`, the transient cursor of the id. -/
def ID.SetCursor (i : ID) (c : String) : ID := { i with cursor := c }

/-- The lower-case hex digit of a number below 16. -/
def hexDigit (d : Nat) : Char :=
  "0123456789abcdef".data.getD d '0'

/-- Go `hex.EncodeToString`. -/
def hexString (bs : List Nat) : String :=
  ⟨bs.flatMap (fun b => [hexDigit (b / 16 % 16), hexDigit (b % 16)])⟩

/-- Modelled from the spec: `(*ID).String()`, the text of the document id, the hex of
its raw bytes. -/
def ID.String (i : ID) : String := hexString i.data

/-- The record `vkv.KeyValue` as the sort index uses it: the key is a Go string that
holds arbitrary bytes and is kept as its bytes. -/
structure SortKv where
  Key : List Nat
  Data : List Nat
  Version : Int
deriving DecidableEq, Repr

/-- A call made by the sort index to its store `si.db`, with its outcome. -/
inductive DbEvent where
  | Get (key : List Nat) (version : Int) (out : Except IxErr SortKv) : DbEvent
  | Put (kv : SortKv) (err : Option IxErr) : DbEvent
  | ReverseKeys (start stop : List Nat) (limit : Int)
      (out : Except IxErr (List SortKv × List Nat)) : DbEvent
deriving DecidableEq

/-- The store `*vkv.DB` of a sort index, whose code is outside the sources: operations
over a store `σ` that return their Go result and the store they leave. -/
structure SortDB (σ : Type) where
  Get : σ → List Nat → Int → Except IxErr SortKv × σ
  Put : σ → SortKv → Option IxErr × σ
  ReverseKeys : σ → List Nat → List Nat → Int → Except IxErr (List SortKv × List Nat) × σ

/-- Go `sortIndex`. -/
structure sortIndex (σ : Type) where
  db : SortDB σ
  fields : List String
  name : String

/-- What a method of `sortIndex` leaves: its Go result (a panic is an error of kind
`panic`), the store and the calls made to the store, in order. -/
structure IxRun (σ α : Type) where
  result : Except IxErr α
  store : σ
  trace : List DbEvent

/-- The Go result of a method that returns only an `error`: success for `nil`. -/
def resultOf (err : Option IxErr) : Except IxErr Unit :=
  match err with
  | none => .ok ()
  | some e => .error e

/-- The second half of `Index`, from the test of the flag on; `tr` holds the calls made
so far and `flagDeleted` is the constant of package `docstore` (declared outside the
sources). -/
def sortIndex.indexTail {σ : Type} (si : sortIndex σ) (flagDeleted : Nat) (s : σ)
    (rnd : List Nat) (_id : ID) (doc : List (String × Value)) (lastVersionKey : List Nat)
    (tr : List DbEvent) : IxRun σ Unit :=
  if _id.Flag = flagDeleted then
    ⟨.ok (), s, tr⟩
  else
    match si.fields with
    | [] => ⟨.error (.panic "index out of range"), s, tr⟩
    | field0 :: _ =>
      let v := if field0 = "_updated" then Value.int64 _id.Version
        else (doc.lookup field0).getD Value.other
      match buildKey v rnd with
      | .error e => ⟨.error e, s, tr⟩
      | .ok sortKey =>
        let kv1 : SortKv :=
          { Key := sortKey, Data := buildVal _id.Version _id, Version := _id.Version }
        match si.db.Put s kv1 with
        | (some err, s1) => ⟨.error err, s1, tr ++ [.Put kv1 (some err)]⟩
        | (none, s1) =>
          let kv2 : SortKv := { Key := lastVersionKey, Data := sortKey, Version := 0 }
          match si.db.Put s1 kv2 with
          | (some err, s2) =>
            ⟨.error err, s2, tr ++ [.Put kv1 none, .Put kv2 (some err)]⟩
          | (none, s2) => ⟨.ok (), s2, tr ++ [.Put kv1 none, .Put kv2 none]⟩

/-- Go `sortIndex.Index`, with the bytes `rnd` delivered by the random source. -/
def sortIndex.Index {σ : Type} (si : sortIndex σ) (flagDeleted : Nat) (s : σ)
    (rnd : List Nat) (_id : ID) (doc : List (String × Value)) : IxRun σ Unit :=
  let lastVersionKey := buildLastVersionKey _id
  match si.db.Get s lastVersionKey (-1) with
  | (.ok oldSortKvKey, s1) =>
    let e1 := DbEvent.Get lastVersionKey (-1) (.ok oldSortKvKey)
    match si.db.Get s1 oldSortKvKey.Data (-1) with
    | (.error err, s2) => ⟨.error err, s2, [e1, .Get oldSortKvKey.Data (-1) (.error err)]⟩
    | (.ok oldSortKv, s2) =>
      let e2 := DbEvent.Get oldSortKvKey.Data (-1) (.ok oldSortKv)
      if oldSortKv.Data.length = 0 then
        si.indexTail flagDeleted s2 rnd _id doc lastVersionKey [e1, e2]
      else
        match parseVal oldSortKv.Data with
        | none => ⟨.error (.panic "slice bounds out of range"), s2, [e1, e2]⟩
        | some (_, _oid) =>
          if _oid.String ≠ _id.String then
            ⟨.error .idMismatch, s2, [e1, e2]⟩
          else
            let kv0 : SortKv :=
              { Key := oldSortKvKey.Data, Data := oldSortKv.Data, Version := _id.Version }
            match si.db.Put s2 kv0 with
            | (some err, s3) => ⟨.error err, s3, [e1, e2, .Put kv0 (some err)]⟩
            | (none, s3) =>
              si.indexTail flagDeleted s3 rnd _id doc lastVersionKey [e1, e2, .Put kv0 none]
  | (.error .ErrNotFound, s1) =>
    si.indexTail flagDeleted s1 rnd _id doc lastVersionKey
      [.Get lastVersionKey (-1) (.error .ErrNotFound)]
  | (.error err, s1) => ⟨.error err, s1, [.Get lastVersionKey (-1) (.error err)]⟩

/-- The library functions `Iter` calls: `base64.URLEncoding` and `vkv.PrevKey`. -/
structure IterEnv where
  DecodeString : String → Option (List Nat)
  EncodeToString : List Nat → String
  PrevKey : List Nat → List Nat

/-- The loop of `Iter` over the scanned entries, with the slice `_ids` built so far. -/
def iterLoop (env : IterEnv) (asOf : Int) : List SortKv → List ID → Except IxErr (List ID)
  | [], _ids => .ok _ids
  | kv :: rest, _ids =>
    if kv.Data.length = 0 then
      iterLoop env asOf rest _ids
    else
      match parseVal kv.Data with
      | none => .error (.panic "slice bounds out of range")
      | some (vstart, _id) =>
        if asOf = 0 ∧ vstart ≠ kv.Version then
          iterLoop env asOf rest _ids
        else if asOf > 0 ∧ ((vstart = kv.Version ∧ asOf < vstart) ∨
            (kv.Version > vstart ∧ ¬ (asOf ≥ vstart ∧ asOf < kv.Version))) then
          iterLoop env asOf rest _ids
        else
          let _id := (_id.SetVersion vstart).SetCursor (env.EncodeToString (env.PrevKey kv.Key))
          iterLoop env asOf rest (_ids ++ [_id])

/-- The start of the scan of `Iter`: the decoded cursor, `"k:\xff"` for an empty
cursor. -/
def iterStart (env : IterEnv) (cursor : String) : Except IxErr (List Nat) :=
  if cursor ≠ "" then
    match env.DecodeString cursor with
    | none => .error .base64
    | some decodedCursor => .ok decodedCursor
  else .ok defaultStart

set_option linter.unusedVariables false in
/-- Go `sortIndex.Iter`; the debug prints are left out. -/
def sortIndex.Iter {σ : Type} (si : sortIndex σ) (env : IterEnv) (s : σ)
    (collection cursor : String) (fetchLimit : Int) (asOf : Int) :
    IxRun σ (List ID × String) :=
  match iterStart env cursor with
  | .error err => ⟨.error err, s, []⟩
  | .ok start =>
    match si.db.ReverseKeys s [107, 58] start 50 with
    | (.error err, s1) => ⟨.error err, s1, [.ReverseKeys [107, 58] start 50 (.error err)]⟩
    | (.ok (res, nextCursor), s1) =>
      match iterLoop env asOf res [] with
      | .error e => ⟨.error e, s1, [.ReverseKeys [107, 58] start 50 (.ok (res, nextCursor))]⟩
      | .ok _ids =>
        ⟨.ok (_ids, env.EncodeToString nextCursor), s1,
          [.ReverseKeys [107, 58] start 50 (.ok (res, nextCursor))]⟩

/-! ### The entries `Iter` keeps, as the specification words them -/

/-- The start version stored in the data of an entry (0 when the data is too short to
hold one). -/
def SortKv.vstart (kv : SortKv) : Int :=
  ((parseVal kv.Data).map (fun p => p.1)).getD 0

/-- The id `Iter` returns for an entry it keeps: the id stored in the data, with the
stored start version as its version and the cursor of the entry. -/
def entryID (env : IterEnv) (kv : SortKv) : ID :=
  match parseVal kv.Data with
  | some (vstart, _id) =>
    (_id.SetVersion vstart).SetCursor (env.EncodeToString (env.PrevKey kv.Key))
  | none => FromRaw []

/-- An entry is well formed when its data is empty or long enough to hold a start
version. -/
def SortKv.wellFormed (kv : SortKv) : Bool :=
  kv.Data.length == 0 || decide (8 ≤ kv.Data.length)

/-- The entry is the latest authoritative one: non-empty data whose start version is the
version of the entry. -/
def keptLatest (kv : SortKv) : Bool :=
  kv.Data.length != 0 && kv.vstart == kv.Version

/-- The time `asOf` lies in `[vstart, version)`. -/
def inSlot (asOf : Int) (kv : SortKv) : Bool :=
  kv.Data.length != 0 && decide (kv.vstart ≤ asOf) && decide (asOf < kv.Version)

/-- The entry was in its slot at time `asOf`: written at or before `asOf` and either
still authoritative or superseded after `asOf`. -/
def keptAsOf (asOf : Int) (kv : SortKv) : Bool :=
  kv.Data.length != 0 && decide (kv.vstart ≤ asOf) &&
    (decide (asOf < kv.Version) || kv.Version == kv.vstart)

/-! ### An in-memory VKV store for concrete runs -/

/-- Modelled from the spec: the store of package `vkv` (outside the sources), an
ordered map from `(key, version)` to data, kept as the list of its records. -/
structure MemVkv where
  records : List SortKv
deriving DecidableEq

/-- The record of greatest version in a list of records. -/
def latestOf : List SortKv → Option SortKv
  | [] => none
  | r :: rs =>
    match latestOf rs with
    | none => some r
    | some r' => if r'.Version > r.Version then some r' else some r

/-- Modelled from the spec: `Put` of the VKV store persists `(key, version, data)`; a
record with the same key and version is replaced. -/
def MemVkv.Put (m : MemVkv) (kv : SortKv) : MemVkv :=
  ⟨kv :: m.records.filter (fun r => !(r.Key == kv.Key && r.Version == kv.Version))⟩

/-- Modelled from the spec: `Get(key, version)` of the VKV store returns the latest
record of the key when `version ≤ 0`, else the one of greatest version `≤ version`, and
fails with not-found when there is none. -/
def MemVkv.Get (m : MemVkv) (key : List Nat) (version : Int) : Except IxErr SortKv :=
  match latestOf (m.records.filter
      (fun r => r.Key == key && (decide (version ≤ 0) || decide (r.Version ≤ version)))) with
  | some r => .ok r
  | none => .error .ErrNotFound

/-- Insertion of a key in a list of distinct keys in descending order. -/
def insertDesc (k : List Nat) : List (List Nat) → List (List Nat)
  | [] => [k]
  | x :: xs =>
    if lexLt x k then k :: x :: xs
    else if x = k then x :: xs
    else x :: insertDesc k xs

/-- Modelled from the spec: `ReverseKeys` of the VKV store as `Iter` calls it, the keys
in `(start, stop]` in descending order, each with its latest record, at most `limit` of
them (all of them for `limit ≤ 0`), and as continuation the next key the scan would
visit, empty when the range is exhausted. -/
def MemVkv.ReverseKeys (m : MemVkv) (start stop : List Nat) (limit : Int) :
    List SortKv × List Nat :=
  let keys := (m.records.map (fun r => r.Key)).foldr insertDesc []
  let inRange := keys.filter (fun k => lexLt start k && !lexLt stop k)
  let n := if limit ≤ 0 then inRange.length else limit.toNat
  ((inRange.take n).filterMap (fun k => latestOf (m.records.filter (fun r => r.Key == k))),
    ((inRange.drop n).head?).getD [])

/-- The in-memory VKV store as the store of a sort index: no call fails but a `Get` of
an absent key. -/
def memSortDB : SortDB MemVkv where
  Get m key version := (m.Get key version, m)
  Put m kv := (none, m.Put kv)
  ReverseKeys m start stop limit := (.ok (m.ReverseKeys start stop limit), m)

/-- A sort index on the field `f` over the in-memory store. -/
def demoIndex : sortIndex MemVkv := ⟨memSortDB, ["f"], "demo"⟩

/-- Library functions for concrete runs: cursors are written in hex, none decodes, and
the key before a key is taken to be the key itself. -/
def demoEnv : IterEnv := ⟨fun _ => none, hexString, fun k => k⟩

/-- The raw bytes of the document `d1`. -/
def d1 : List Nat := [1, 1, 1, 1, 1, 1, 1, 1, 1, 1, 1, 1]

/-- The raw bytes of the document `d2`. -/
def d2 : List Nat := [2, 2, 2, 2, 2, 2, 2, 2, 2, 2, 2, 2]

/-- The store of scenario D: `d1` indexed at version 1 with field 5, then at version 2
with field 3; the deleted flag is 1. -/
def storeD : MemVkv :=
  (demoIndex.Index 1
    (demoIndex.Index 1 ⟨[]⟩ [7, 7, 7, 7, 7] ⟨d1, 0, 1, ""⟩ [("f", .int 5)]).store
    [8, 8, 8, 8, 8] ⟨d1, 0, 2, ""⟩ [("f", .int 3)]).store

/-- The store after the first step of scenario E: `d2` indexed at version 1 with
field 7. -/
def storeE1 : MemVkv :=
  (demoIndex.Index 1 ⟨[]⟩ [7, 7, 7, 7, 7] ⟨d2, 0, 1, ""⟩ [("f", .int 7)]).store

/-- The store of scenario E: `d2` indexed at version 1 with field 7, then at version 2
with the deleted flag. -/
def storeE : MemVkv :=
  (demoIndex.Index 1
    (demoIndex.Index 1 ⟨[]⟩ [7, 7, 7, 7, 7] ⟨d2, 0, 1, ""⟩ [("f", .int 7)]).store
    [8, 8, 8, 8, 8] ⟨d2, 1, 2, ""⟩ []).store

/-- The store after the first step of scenario D: `d1` indexed at version 1. -/
def storeD1 : MemVkv :=
  (demoIndex.Index 1 ⟨[]⟩ [7, 7, 7, 7, 7] ⟨d1, 0, 1, ""⟩ [("f", .int 5)]).store

/-- A store with two live documents: `d1` with field 5 and `d2` with field 7, both
at version 1. -/
def storeTwo : MemVkv :=
  (demoIndex.Index 1 storeD1 [8, 8, 8, 8, 8] ⟨d2, 0, 1, ""⟩ [("f", .int 7)]).store

/-- The raw bytes and version of the ids a run of `Iter` returns, `none` on failure. -/
def idsOf {σ : Type} (r : IxRun σ (List ID × String)) : Option (List (List Nat × Int)) :=
  match r.result with
  | .ok (ids, _) => some (ids.map (fun i => (i.Raw, i.Version)))
  | .error _ => none

/-! ## ext/filetree/filetree.go: `fetchDir` -/

/-- Errors and panics of the filetree extension. -/
inductive FtErr where
  /-- An error returned by the blob store (`ft.blobStore.Get`). -/
  | blob (code : Nat) : FtErr
  /-- An error returned by `meta.NewMetaFromBlob`. -/
  | badMeta (code : Nat) : FtErr
  /-- A Go panic, with its message. -/
  | panic (msg : String) : FtErr
deriving DecidableEq, Repr

/-- Modelled from the spec: the record `meta.Meta` (package `filetreeutil/meta`, outside
the sources), the metadata of a file or directory; `Refs` holds the references to
further blobs and the field `Type` is spelled `NodeType`. -/
structure Meta where
  Name : String
  NodeType : String
  Size : Int
  Mode : Nat
  ModTime : String
  Hash : String
  Refs : List Json
  Extra : List (String × Json)
  XAttrs : List (String × String)

/-- Go `Node`; the field `Type` is spelled `NodeType` and `meta` is spelled `nodeMeta`. -/
inductive Node where
  | mk (Name : String) (NodeType : String) (Size : Int) (Mode : Nat) (ModTime : String)
      (Hash : String) (Children : List Node) (Extra : List (String × Json))
      (XAttrs : List (String × String)) (nodeMeta : Meta) : Node

/-- The field `Type` of a node. -/
def Node.NodeType : Node → String
  | .mk _ t _ _ _ _ _ _ _ _ => t

/-- The field `Children` of a node. -/
def Node.Children : Node → List Node
  | .mk _ _ _ _ _ _ c _ _ _ => c

/-- The field `meta` of a node. -/
def Node.nodeMeta : Node → Meta
  | .mk _ _ _ _ _ _ _ _ _ m => m

/-- The node after the assignment `n.Children = children`. -/
def Node.setChildren : Node → List Node → Node
  | .mk a b c d e f _ h i j, children => .mk a b c d e f children h i j

mutual
/-- The number of levels of the tree under a node, the node included. -/
def Node.height : Node → Nat
  | .mk _ _ _ _ _ _ c _ _ _ => 1 + heightList c
/-- The greatest height in a list of nodes, 0 for the empty list. -/
def heightList : List Node → Nat
  | [] => 0
  | n :: ns => max n.height (heightList ns)
end

/-- Go `metaToNode`, which never fails. -/
def metaToNode (m : Meta) : Node :=
  .mk m.Name m.NodeType m.Size m.Mode m.ModTime m.Hash [] m.Extra m.XAttrs m

/-- Go `FileTreeExt`: the blob store and the decoder of package `meta`, both outside
the sources; the blob store is read only during a traversal. -/
structure FileTreeExt where
  blobStoreGet : String → Except FtErr (List Nat)
  NewMetaFromBlob : String → List Nat → Except FtErr Meta

/-- Go `FileTreeExt.nodeByRef`. -/
def FileTreeExt.nodeByRef (ft : FileTreeExt) (hash : String) : Except FtErr Node :=
  match ft.blobStoreGet hash with
  | .error err => .error err
  | .ok blob =>
    match ft.NewMetaFromBlob hash blob with
    | .error err => .error err
    | .ok m => .ok (metaToNode m)

/-- The loop of `fetchDir` over the references of a directory, with the children
appended so far: the children and the error the loop ends with.  The recursive call
`ft.fetchDir(cn, depth+1)` is `recur`; `none` stands for a recursive call that did not
return. -/
def FileTreeExt.fetchRefs (ft : FileTreeExt) (recur : Node → Option (Node × Option FtErr)) :
    List Json → List Node → Option (List Node × Option FtErr)
  | [], children => some (children, none)
  | .str hash :: rest, children =>
    match ft.nodeByRef hash with
    | .error err => some (children, some err)
    | .ok cn =>
      match recur cn with
      | none => none
      | some (cn', some err) => some (children ++ [cn'], some err)
      | some (cn', none) => ft.fetchRefs recur rest (children ++ [cn'])
  | _ :: _, children => some (children, some (.panic "interface conversion"))

/-- The body of `fetchDir`, with `recur` for the recursive call: the node as the call
leaves it and the error returned; the call `n.meta.Close()` is left out. -/
def FileTreeExt.fetchDirBody (ft : FileTreeExt)
    (recur : Node → Int → Option (Node × Option FtErr)) (n : Node) (depth : Int) :
    Option (Node × Option FtErr) :=
  if depth ≥ 10 then
    some (n, none)
  else if n.NodeType = "dir" then
    match ft.fetchRefs (fun cn => recur cn (depth + 1)) n.nodeMeta.Refs [] with
    | none => none
    | some (children, err) => some (n.setChildren children, err)
  else
    some (n, none)

/-- Go `FileTreeExt.fetchDir`, with `fuel` nested recursive calls allowed: `none` when a
deeper call would be needed. -/
def FileTreeExt.fetchDir (ft : FileTreeExt) : Nat → Node → Int → Option (Node × Option FtErr)
  | 0, n, depth => ft.fetchDirBody (fun _ _ => none) n depth
  | fuel + 1, n, depth => ft.fetchDirBody (fun cn d => ft.fetchDir fuel cn d) n depth

/-- A blob store in which every blob is the directory `loop`, whose only reference is
the blob itself. -/
def cyclicTree : FileTreeExt where
  blobStoreGet _ := .ok []
  NewMetaFromBlob hash _ := .ok ⟨"loop", "dir", 0, 0, "", hash, [.str hash], [], []⟩

/-! # Theorems -/

/-! ## Lemmas on the string functions -/

theorem hasPrefix_iff (p pre : String) :
    HasPrefix p pre = true ↔ ∃ h : String, p = pre ++ h := by
  unfold HasPrefix
  rw [ List.isPrefixOf_iff_prefix]
  constructor
  · rintro ⟨t, ht⟩
    exact ⟨⟨t⟩, String.ext (by simp [String.data_append, ht])⟩
  · rintro ⟨h, rfl⟩
    exact ⟨h.data, by simp [String.data_append]⟩

theorem replaceFirst_drop (old s : List Char) (h : old.isPrefixOf s = true) :
    replaceFirst old [] s = s.drop old.length := by
  cases s with
  | nil =>
    cases old with
    | nil => simp [replaceFirst]
    | cons a l => simp [List.isPrefixOf] at h
  | cons c cs => simp [replaceFirst, h]

theorem replace1_host (p : String) (h : HasPrefix p "if-host-" = true) :
    Replace1 p "if-host-" "" = ⟨p.data.drop 8⟩ := by
  unfold Replace1
  unfold HasPrefix at h
  rw [show ("" : String).data = [] from rfl, replaceFirst_drop _ _ h]
  rfl

theorem drop_host (h : String) : (⟨("if-host-" ++ h).data.drop 8⟩ : String) = h := by
  apply String.ext
  simp [String.data_append]

/-- The three branches of `checkRule`, with the host text made explicit. -/
theorem checkRule_eq (lower : Char → Char) (p : String) (req : Request) :
    checkRule lower p req =
      if isKnownPred p = true then .ok (predHolds lower p req) else .error (.parseRule p) := by
  unfold checkRule isKnownPred predHolds
  by_cases h1 : p = "if-meta"
  · subst h1
    have hp : HasPrefix "if-meta" "if-host-" = false := by decide
    cases hm : req.MetaBlob <;> simp [hm, hp]
  · by_cases h2 : HasPrefix p "if-host-" = true
    · have h3 : p ≠ "default" := by
        rintro rfl
        revert h2
        decide
      simp only [h1, h2, h3, if_false, if_true, replace1_host p h2]
      by_cases h4 : ToLower lower req.Host = ToLower lower ⟨p.data.drop 8⟩
      · simp [h4]
      · have h5 : ¬ ToLower lower ⟨p.data.drop 8⟩ = ToLower lower req.Host :=
          fun h => h4 h.symm
        simp [h4, h5]
    · by_cases h3 : p = "default"
      · subst h3
        have hp : HasPrefix "default" "if-host-" = false := by decide
        simp [hp]
      · simp [h1, h2, h3]

theorem isKnownPred_iff (p : String) : isKnownPred p = true ↔ KnownPred p := by
  unfold isKnownPred KnownPred
  simp [hasPrefix_iff, or_assoc]

theorem predHolds_iff (lower : Char → Char) (p : String) (req : Request) :
    predHolds lower p req = true ↔ PredHolds lower p req := by
  unfold predHolds PredHolds
  simp only [Bool.or_eq_true, Bool.and_eq_true, decide_eq_true_eq]
  constructor
  · rintro ((h | h) | ⟨h, h'⟩)
    · exact Or.inl h
    · exact Or.inr (Or.inl h)
    · obtain ⟨t, rfl⟩ := (hasPrefix_iff _ _).1 h
      rw [drop_host] at h'
      exact Or.inr (Or.inr ⟨t, rfl, h'⟩)
  · rintro (h | h | ⟨t, rfl, h'⟩)
    · exact Or.inl (Or.inl h)
    · exact Or.inl (Or.inr h)
    · refine Or.inr ⟨(hasPrefix_iff _ _).2 ⟨t, rfl⟩, ?_⟩
      rw [drop_host]
      exact h'


/-! ## Lemmas on the walk of `Route` -/

theorem stringsOf_map_str (ps : List String) :
    Json.stringsOf (ps.map Json.str) = some ps := by
  induction ps with
  | nil => rfl
  | cons p ps ih => simp [Json.stringsOf, ih]

theorem checkSubRules_eq (lower : Char → Char) (req : Request) (ps : List String) (m : Bool) :
    checkSubRules lower req ps m =
      match ps.find? (fun p => !isKnownPred p) with
      | some p => .error (.parseRule p)
      | none => .ok (m && ps.all (fun p => predHolds lower p req)) := by
  induction ps generalizing m with
  | nil => simp [checkSubRules]
  | cons p ps ih =>
    unfold checkSubRules
    rw [checkRule_eq]
    by_cases hk : isKnownPred p = true
    · simp only [hk, if_true, List.find?_cons, Bool.not_true, List.all_cons]
      rw [ih]
      cases ps.find? (fun p => !isKnownPred p) with
      | some q => rfl
      | none =>
        cases predHolds lower p req <;> cases m <;> simp
    · simp only [Bool.not_eq_true] at hk
      simp [hk, List.find?_cons]

theorem routeRule_toJson (lower : Char → Char) (req : Request) (r : Rule) :
    routeRule lower r.toJson req =
      match r.preds.find? (fun p => !isKnownPred p) with
      | some p => .error (.parseRule p)
      | none => .ok (if ruleMatches lower req r = true then some r.backend else none) := by
  cases r with
  | basic p b =>
    simp only [Rule.toJson, routeRule, Json.Array, Rule.preds, ruleMatches, Rule.backend,
      List.find?_cons, List.find?_nil, List.all_cons, List.all_nil, Bool.and_true]
    rw [checkRule_eq]
    by_cases hk : isKnownPred p = true
    · simp only [hk, if_true, Bool.not_true]
      cases predHolds lower p req <;> rfl
    · simp only [Bool.not_eq_true] at hk
      simp [hk]
  | conj ps b =>
    simp only [Rule.toJson, routeRule, Json.Array, Json.GetIndex, Json.StringArray,
      Json.MustString, Rule.preds, ruleMatches, Rule.backend, stringsOf_map_str]
    simp only [List.length_cons, List.length_nil, List.getD_cons_zero, List.getD_cons_succ,
      Nat.reduceAdd, Nat.reduceLT, Nat.lt_add_one, gt_iff_lt, if_true, stringsOf_map_str]
    rw [checkSubRules_eq]
    cases ps.find? (fun p => !isKnownPred p) with
    | some q => rfl
    | none =>
      simp only [Bool.true_and]
      cases List.all ps (fun p => predHolds lower p req) <;> rfl

theorem routeRules_toJson (lower : Char → Char) (req : Request) (rules : List Rule) :
    routeRules lower req (rules.map Rule.toJson) = walkRules lower req rules := by
  induction rules with
  | nil => rfl
  | cons r rest ih =>
    simp only [List.map_cons, routeRules, walkRules, routeRule_toJson]
    cases r.preds.find? (fun p => !isKnownPred p) with
    | some q => rfl
    | none =>
      by_cases hm : ruleMatches lower req r = true
      · simp [hm]
      · simp only [hm]
        exact ih

theorem find_unknown_none (ps : List String) :
    ps.find? (fun p => !isKnownPred p) = none ↔ ∀ p ∈ ps, KnownPred p := by
  simp [List.find?_eq_none, isKnownPred_iff]

theorem walkRules_known (lower : Char → Char) (req : Request) (rules : List Rule)
    (hwf : ∀ r ∈ rules, ∀ p ∈ r.preds, KnownPred p) :
    walkRules lower req rules = .ok (firstMatch lower rules req) := by
  induction rules with
  | nil => rfl
  | cons r rest ih =>
    have h1 := (find_unknown_none r.preds).2 (hwf r (List.mem_cons_self _ _))
    have h2 := ih (fun r' hr' => hwf r' (List.mem_cons_of_mem _ hr'))
    simp only [walkRules, h1, firstMatch, List.find?_cons]
    by_cases hm : ruleMatches lower req r = true
    · simp [hm]
    · simp only [Bool.not_eq_true] at hm
      simp only [hm, h2, firstMatch]
      rfl

theorem walkRules_error_iff (lower : Char → Char) (req : Request) (rules : List Rule) :
    (∃ e, walkRules lower req rules = .error e) ↔
      ∃ pre r post, rules = pre ++ r :: post ∧ (∃ p ∈ r.preds, ¬ KnownPred p) ∧
        ∀ r' ∈ pre, (∀ p ∈ r'.preds, KnownPred p) ∧ ruleMatches lower req r' = false := by
  induction rules with
  | nil =>
    simp [walkRules]
  | cons r rest ih =>
    cases hf : r.preds.find? (fun p => !isKnownPred p) with
    | some q =>
      have hq := List.find?_some hf
      have hq' := List.mem_of_find?_eq_some hf
      simp only [walkRules, hf]
      constructor
      · intro _
        refine ⟨[], r, rest, rfl, ⟨q, hq', ?_⟩, by simp⟩
        intro hk
        rw [← isKnownPred_iff] at hk
        simp [hk] at hq
      · intro _
        exact ⟨_, rfl⟩
    | none =>
      have hall := (find_unknown_none r.preds).1 hf
      simp only [walkRules, hf]
      by_cases hm : ruleMatches lower req r = true
      · simp only [hm, if_true]
        constructor
        · rintro ⟨e, he⟩
          cases he
        · rintro ⟨pre, r0, post, heq, ⟨p, hp, hnk⟩, hpre⟩
          cases pre with
          | nil =>
            simp only [List.nil_append, List.cons.injEq] at heq
            obtain ⟨rfl, _⟩ := heq
            exact absurd (hall p hp) hnk
          | cons a pre' =>
            simp only [List.cons_append, List.cons.injEq] at heq
            obtain ⟨rfl, _⟩ := heq
            have := (hpre r (List.mem_cons_self _ _)).2
            rw [hm] at this
            cases this
      · simp only [hm]
        simp only [Bool.not_eq_true] at hm
        rw [if_neg (by simp), ih]
        constructor
        · rintro ⟨pre, r0, post, heq, hunk, hpre⟩
          refine ⟨r :: pre, r0, post, by simp [heq], hunk, ?_⟩
          intro r' hr'
          rcases List.mem_cons.1 hr' with rfl | h
          · exact ⟨hall, hm⟩
          · exact hpre r' h
        · rintro ⟨pre, r0, post, heq, ⟨p, hp, hnk⟩, hpre⟩
          cases pre with
          | nil =>
            simp only [List.nil_append, List.cons.injEq] at heq
            obtain ⟨rfl, _⟩ := heq
            exact absurd (hall p hp) hnk
          | cons a pre' =>
            simp only [List.cons_append, List.cons.injEq] at heq
            obtain ⟨rfl, rfl⟩ := heq
            exact ⟨pre', r0, post, rfl, ⟨p, hp, hnk⟩,
              fun r' hr' => hpre r' (List.mem_cons_of_mem _ hr')⟩

theorem walkRules_error_kind (lower : Char → Char) (req : Request) (rules : List Rule)
    (e : Panic) (he : walkRules lower req rules = .error e) :
    ∃ p, e = .parseRule p ∧ ¬ KnownPred p := by
  induction rules with
  | nil => cases he
  | cons r rest ih =>
    cases hf : r.preds.find? (fun p => !isKnownPred p) with
    | some q =>
      have hq := List.find?_some hf
      simp only [walkRules, hf] at he
      cases he
      refine ⟨q, rfl, ?_⟩
      intro hk
      rw [← isKnownPred_iff] at hk
      simp [hk] at hq
    | none =>
      simp only [walkRules, hf] at he
      by_cases hm : ruleMatches lower req r = true
      · simp [hm] at he
      · simp only [hm] at he
        exact ih he


/-! ## Lemmas on letter case -/

theorem toNat_ofNat_small (n : Nat) (h : n < 55296) : (Char.ofNat n).toNat = n := by
  have hv : n.isValidChar := Or.inl h
  simp only [Char.ofNat, dif_pos hv, Char.ofNatAux, Char.toNat]
  simp [UInt32.toNat]

theorem toLower_toNat (c : Char) :
    c.toLower.toNat = if 65 ≤ c.toNat ∧ c.toNat ≤ 90 then c.toNat + 32 else c.toNat := by
  unfold Char.toLower
  by_cases h : 65 ≤ c.toNat ∧ c.toNat ≤ 90
  · simp only [ge_iff_le, h, and_self, if_true]
    exact toNat_ofNat_small _ (by omega)
  · simp only [ge_iff_le, h, if_false]

theorem char_eq_of_toNat_eq {a b : Char} (h : a.toNat = b.toNat) : a = b := by
  rw [← Char.ofNat_toNat a, ← Char.ofNat_toNat b, h]

theorem toLower_eq_iff (a b : Char) : a.toLower = b.toLower ↔ sameLetter a b := by
  unfold sameLetter
  constructor
  · intro h
    have h' := congrArg Char.toNat h
    rw [toLower_toNat, toLower_toNat] at h'
    by_cases ha : 65 ≤ a.toNat ∧ a.toNat ≤ 90 <;> by_cases hb : 65 ≤ b.toNat ∧ b.toNat ≤ 90
    · simp only [ha, hb, and_self, if_true] at h'
      exact Or.inl (char_eq_of_toNat_eq (by omega))
    · simp only [ha, hb, and_self, if_true, if_false] at h'
      exact Or.inr (Or.inl ⟨ha.1, ha.2, h'.symm⟩)
    · simp only [ha, hb, and_self, if_true, if_false] at h'
      exact Or.inr (Or.inr ⟨hb.1, hb.2, h'⟩)
    · simp only [ha, hb, if_false] at h'
      exact Or.inl (char_eq_of_toNat_eq h')
  · rintro (rfl | ⟨h1, h2, h3⟩ | ⟨h1, h2, h3⟩)
    · rfl
    · apply char_eq_of_toNat_eq
      rw [toLower_toNat, toLower_toNat, if_pos ⟨h1, h2⟩, if_neg (by omega)]
      exact h3.symm
    · apply char_eq_of_toNat_eq
      rw [toLower_toNat, toLower_toNat, if_neg (by omega), if_pos ⟨h1, h2⟩]
      exact h3

theorem string_mk_eq_iff (l1 l2 : List Char) : (⟨l1⟩ : String) = ⟨l2⟩ ↔ l1 = l2 :=
  ⟨fun h => congrArg String.data h, fun h => congrArg String.mk h⟩

theorem all_congr_mem {α : Type} (l : List α) (f g : α → Bool) (h : ∀ a ∈ l, f a = g a) :
    l.all f = l.all g := by
  induction l with
  | nil => rfl
  | cons a l ih =>
    simp only [List.all_cons, h a (List.mem_cons_self _ _)]
    rw [ih (fun b hb => h b (List.mem_cons_of_mem _ hb))]

theorem map_lower_eq_iff (lower : Char → Char)
    (hlow : ∀ c : Char, c.toNat < 128 → lower c = c.toLower) :
    ∀ l1 l2 : List Char, (∀ c ∈ l1, c.toNat < 128) → (∀ c ∈ l2, c.toNat < 128) →
      (l1.map lower = l2.map lower ↔ List.Forall₂ sameLetter l1 l2)
  | [], [], _, _ => by simp
  | [], _ :: _, _, _ => by simp
  | _ :: _, [], _, _ => by simp
  | a :: l1, b :: l2, h1, h2 => by
    have ha := hlow a (h1 a (List.mem_cons_self _ _))
    have hb := hlow b (h2 b (List.mem_cons_self _ _))
    have ih := map_lower_eq_iff lower hlow l1 l2
      (fun c hc => h1 c (List.mem_cons_of_mem _ hc))
      (fun c hc => h2 c (List.mem_cons_of_mem _ hc))
    simp only [List.map_cons, List.cons.injEq, List.forall₂_cons, ha, hb, toLower_eq_iff, ih]

theorem toLower_eq_iff_eqIgnoreCase (lower : Char → Char)
    (hlow : ∀ c : Char, c.toNat < 128 → lower c = c.toLower) (s t : String)
    (hs : IsASCII s) (ht : IsASCII t) :
    ToLower lower s = ToLower lower t ↔ EqIgnoreCase s t := by
  unfold ToLower EqIgnoreCase
  rw [string_mk_eq_iff]
  exact map_lower_eq_iff lower hlow s.data t.data hs ht

theorem toLower_ascii (lower : Char → Char)
    (hlow : ∀ c : Char, c.toNat < 128 → lower c = c.toLower) (s : String) (hs : IsASCII s) :
    ToLower lower s = ToLower Char.toLower s := by
  unfold ToLower
  rw [string_mk_eq_iff]
  exact List.map_congr_left (fun c hc => hlow c (hs c hc))

theorem predHolds_ascii (lower : Char → Char)
    (hlow : ∀ c : Char, c.toNat < 128 → lower c = c.toLower) (p : String) (req : Request)
    (hp : IsASCII p) (hh : IsASCII req.Host) :
    predHolds lower p req = predHolds Char.toLower p req := by
  unfold predHolds
  have hd : IsASCII ⟨p.data.drop 8⟩ := fun c hc => hp c (List.mem_of_mem_drop hc)
  rw [toLower_ascii lower hlow _ hd, toLower_ascii lower hlow _ hh]

theorem firstMatch_ascii (lower : Char → Char)
    (hlow : ∀ c : Char, c.toNat < 128 → lower c = c.toLower) (rules : List Rule)
    (req : Request) (hp : ∀ r ∈ rules, ∀ p ∈ r.preds, IsASCII p) (hh : IsASCII req.Host) :
    firstMatch lower rules req = firstMatch Char.toLower rules req := by
  unfold firstMatch
  have : ∀ r ∈ rules, ruleMatches lower req r = ruleMatches Char.toLower req r := by
    intro r hr
    unfold ruleMatches
    exact all_congr_mem _ _ _ (fun p hpm => predHolds_ascii lower hlow p req (hp r hr p hpm) hh)
  have hfind : rules.find? (ruleMatches lower req) = rules.find? (ruleMatches Char.toLower req) := by
    clear hp
    induction rules with
    | nil => rfl
    | cons r rest ih =>
      simp only [List.find?_cons, this r (List.mem_cons_self _ _)]
      rw [ih (fun r' hr' => this r' (List.mem_cons_of_mem _ hr'))]
  rw [hfind]


/-! ## Lemmas on the inputs of `Route` -/

theorem checkRule_congr (lower : Char → Char) (p : String) (q1 q2 : Request)
    (hm : q1.MetaBlob = q2.MetaBlob) (hh : q1.Host = q2.Host) :
    checkRule lower p q1 = checkRule lower p q2 := by
  unfold checkRule
  rw [hm, hh]

theorem checkSubRules_congr (lower : Char → Char) (q1 q2 : Request)
    (hm : q1.MetaBlob = q2.MetaBlob) (hh : q1.Host = q2.Host) (ps : List String) (m : Bool) :
    checkSubRules lower q1 ps m = checkSubRules lower q2 ps m := by
  induction ps generalizing m with
  | nil => rfl
  | cons p ps ih =>
    simp only [checkSubRules, checkRule_congr lower p q1 q2 hm hh]
    cases checkRule lower p q2 with
    | error e => rfl
    | ok b => exact ih _

theorem routeRule_congr (lower : Char → Char) (q1 q2 : Request)
    (hm : q1.MetaBlob = q2.MetaBlob) (hh : q1.Host = q2.Host) (j : Json) :
    routeRule lower j q1 = routeRule lower j q2 := by
  unfold routeRule
  simp only [checkRule_congr lower _ q1 q2 hm hh, checkSubRules_congr lower q1 q2 hm hh]

theorem routeRules_congr (lower : Char → Char) (q1 q2 : Request)
    (hm : q1.MetaBlob = q2.MetaBlob) (hh : q1.Host = q2.Host) (rules : List Json) :
    routeRules lower q1 rules = routeRules lower q2 rules := by
  induction rules with
  | nil => rfl
  | cons j rest ih =>
    simp only [routeRules, routeRule_congr lower q1 q2 hm hh j, ih]

theorem resolveRules_toJson (rules : List Rule) (acc : List String) :
    resolveRules (rules.map Rule.toJson) acc = .ok (acc ++ rules.map Rule.backend) := by
  induction rules generalizing acc with
  | nil => simp [resolveRules]
  | cons r rest ih =>
    cases r with
    | basic p b =>
      simp only [List.map_cons, resolveRules, resolveRule, Rule.toJson, Json.Array, Rule.backend]
      rw [ih]
      simp
    | conj ps b =>
      simp only [List.map_cons, resolveRules, resolveRule, Rule.toJson, Json.Array,
        Rule.backend, Json.GetIndex, Json.MustString]
      simp only [List.length_cons, List.length_nil, List.getD_cons_zero, List.getD_cons_succ,
        Nat.reduceAdd, Nat.reduceLT, Nat.lt_add_one, gt_iff_lt, if_true]
      rw [ih]
      simp

/-! ## The claims on the router -/

/-- C1: for a well-formed rule list (every rule a two-element array `[predicate, key]`
or `[[predicate...], key]` whose predicates are in the grammar) `Router.Route` returns
the backend key of the first rule, in list order, all of whose predicates hold, and the
empty string when no rule matches; on the rules of scenario C the three requests of the
scenario are routed to `X`, `Y` and `Y`. -/
theorem Route_first_match {β : Type} (lower : Char → Char)
    (hlow : ∀ c : Char, c.toNat < 128 → lower c = c.toLower)
    (rules : List Rule) (host : String) (backends : List (String × β)) (req : Request)
    (hwf : ∀ r ∈ rules, ∀ p ∈ r.preds, KnownPred p) :
    Router.Route lower ⟨rules.map Rule.toJson, host, backends⟩ req
        = .ok (firstMatch lower rules req) ∧
      Router.Route lower ⟨scenarioRules.map Rule.toJson, host, backends⟩
        ⟨Write, true, "srvA"⟩ = .ok "X" ∧
      Router.Route lower ⟨scenarioRules.map Rule.toJson, host, backends⟩
        ⟨Write, true, "srvB"⟩ = .ok "Y" ∧
      Router.Route lower ⟨scenarioRules.map Rule.toJson, host, backends⟩
        ⟨Read, false, "srvA"⟩ = .ok "Y" := by
  have hgen : ∀ (rs : List Rule) (q : Request), (∀ r ∈ rs, ∀ p ∈ r.preds, KnownPred p) →
      Router.Route lower ⟨rs.map Rule.toJson, host, backends⟩ q
        = .ok (firstMatch lower rs q) := by
    intro rs q h
    unfold Router.Route
    rw [routeRules_toJson, walkRules_known lower q rs h]
  have hknown : ∀ r ∈ scenarioRules, ∀ p ∈ r.preds, KnownPred p := by
    have hdec : ∀ r ∈ scenarioRules, ∀ p ∈ r.preds, isKnownPred p = true := by decide
    exact fun r hr p hp => (isKnownPred_iff p).1 (hdec r hr p hp)
  have hascii : ∀ r ∈ scenarioRules, ∀ p ∈ r.preds, IsASCII p := by decide
  refine ⟨hgen rules req hwf, ?_, ?_, ?_⟩
  · rw [hgen _ _ hknown, firstMatch_ascii lower hlow _ _ hascii (by decide)]
    decide
  · rw [hgen _ _ hknown, firstMatch_ascii lower hlow _ _ hascii (by decide)]
    decide
  · rw [hgen _ _ hknown, firstMatch_ascii lower hlow _ _ hascii (by decide)]
    decide

/-- Witness of C1: the rules of scenario C with the ASCII lowering of runes. -/
theorem Route_first_match_witness :
    (∀ r ∈ scenarioRules, ∀ p ∈ r.preds, KnownPred p) ∧
      Router.Route Char.toLower
        (⟨scenarioRules.map Rule.toJson, "srvA", []⟩ : Router Unit) ⟨Write, true, "srvA"⟩
        = .ok "X" :=
  have hknown : ∀ r ∈ scenarioRules, ∀ p ∈ r.preds, KnownPred p := by
    have hdec : ∀ r ∈ scenarioRules, ∀ p ∈ r.preds, isKnownPred p = true := by decide
    exact fun r hr p hp => (isKnownPred_iff p).1 (hdec r hr p hp)
  ⟨hknown, (Route_first_match Char.toLower (fun _ _ => rfl) scenarioRules "srvA" []
    ⟨Write, true, "srvA"⟩ hknown).2.1⟩

/-- C2: for an ASCII predicate text and an ASCII request host, `checkRule` answers true
exactly when the predicate is `default`, or `if-meta` on a meta blob, or `if-host-<h>`
with `h` equal to the request host up to letter case; on the three predicate forms it
returns an answer and does not panic. -/
theorem checkRule_spec (lower : Char → Char)
    (hlow : ∀ c : Char, c.toNat < 128 → lower c = c.toLower)
    (p : String) (req : Request) (hp : IsASCII p) (hh : IsASCII req.Host) :
    (checkRule lower p req = .ok true ↔
        p = "default" ∨ (p = "if-meta" ∧ req.MetaBlob = true) ∨
          ∃ h : String, p = "if-host-" ++ h ∧ EqIgnoreCase h req.Host) ∧
      (KnownPred p → ∃ b, checkRule lower p req = .ok b) := by
  have hcase : ∀ h : String, p = "if-host-" ++ h →
      (ToLower lower h = ToLower lower req.Host ↔ EqIgnoreCase h req.Host) := by
    intro h hph
    apply toLower_eq_iff_eqIgnoreCase lower hlow h req.Host _ hh
    intro c hc
    apply hp c
    rw [hph, String.data_append]
    exact List.mem_append_right _ hc
  constructor
  · rw [checkRule_eq]
    constructor
    · intro h
      by_cases hk : isKnownPred p = true
      · simp only [hk, if_true, Except.ok.injEq] at h
        rcases (predHolds_iff lower p req).1 h with h1 | h2 | ⟨t, ht, hl⟩
        · exact Or.inl h1
        · exact Or.inr (Or.inl h2)
        · exact Or.inr (Or.inr ⟨t, ht, (hcase t ht).1 hl⟩)
      · simp [hk] at h
    · intro h
      have hholds : PredHolds lower p req := by
        rcases h with h1 | h2 | ⟨t, ht, hl⟩
        · exact Or.inl h1
        · exact Or.inr (Or.inl h2)
        · exact Or.inr (Or.inr ⟨t, ht, (hcase t ht).2 hl⟩)
      have hk : isKnownPred p = true := by
        rw [isKnownPred_iff]
        rcases hholds with h1 | h2 | ⟨t, ht, _⟩
        · exact Or.inl h1
        · exact Or.inr (Or.inl h2.1)
        · exact Or.inr (Or.inr ⟨t, ht⟩)
      simp only [hk, if_true, Except.ok.injEq]
      exact (predHolds_iff lower p req).2 hholds
  · intro hk
    rw [checkRule_eq, (isKnownPred_iff p).2 hk]
    exact ⟨_, rfl⟩

/-- Witness of C2: the predicate `if-host-SRVa` on a request from host `srvA`. -/
theorem checkRule_spec_witness :
    IsASCII "if-host-SRVa" ∧ IsASCII "srvA" ∧ EqIgnoreCase "SRVa" "srvA" ∧
      checkRule Char.toLower "if-host-SRVa" ⟨Read, false, "srvA"⟩ = .ok true :=
  have heq : EqIgnoreCase "SRVa" "srvA" :=
    .cons (by unfold sameLetter; decide) (.cons (by unfold sameLetter; decide)
      (.cons (by unfold sameLetter; decide) (.cons (by unfold sameLetter; decide) .nil)))
  ⟨by decide, by decide, heq,
    (checkRule_spec Char.toLower (fun _ _ => rfl) "if-host-SRVa" ⟨Read, false, "srvA"⟩
      (by decide) (by decide)).1.2 (Or.inr (Or.inr ⟨"SRVa", rfl, heq⟩))⟩


/-- C3: on a rule list `Router.Route` panics instead of returning a backend key exactly
when, in list order, a rule holding a predicate outside the grammar is reached before
any matching rule; the panic is the one `checkRule` raises for a predicate outside the
grammar; and a conjunctive rule checks every predicate, so `[["if-meta", "bogus"], "X"]`
panics on a request that is not a meta blob. -/
theorem Route_panics_iff {β : Type} (lower : Char → Char) (rules : List Rule)
    (host : String) (backends : List (String × β)) (req : Request) :
    ((∃ e, Router.Route lower ⟨rules.map Rule.toJson, host, backends⟩ req = .error e) ↔
        ∃ pre r post, rules = pre ++ r :: post ∧ (∃ p ∈ r.preds, ¬ KnownPred p) ∧
          ∀ r' ∈ pre, (∀ p ∈ r'.preds, KnownPred p) ∧ ruleMatches lower req r' = false) ∧
      (∀ e, Router.Route lower ⟨rules.map Rule.toJson, host, backends⟩ req = .error e →
        ∃ p, e = .parseRule p ∧ ¬ KnownPred p) ∧
      Router.Route lower ⟨[Rule.toJson (.conj ["if-meta", "bogus"] "X")], host, backends⟩
        ⟨Write, false, "srvA"⟩ = .error (.parseRule "bogus") := by
  unfold Router.Route
  refine ⟨?_, ?_, ?_⟩
  · rw [routeRules_toJson]
    exact walkRules_error_iff lower _ rules
  · intro e he
    rw [routeRules_toJson] at he
    exact walkRules_error_kind lower _ rules e he
  · show routeRules lower _ ([Rule.conj ["if-meta", "bogus"] "X"].map Rule.toJson) = _
    rw [routeRules_toJson]
    have h1 : isKnownPred "if-meta" = true := by decide
    have h2 : isKnownPred "bogus" = false := by decide
    simp [walkRules, Rule.preds, List.find?_cons, h1, h2]

/-- C4: `Router.Route` reads only the rules of the router and the `MetaBlob` and `Host`
fields of the request: routers with the same rules and requests that agree on those two
fields get the same result, backend key or panic; in particular a read and a write of
the same request are routed alike, and `Put` and `Get` reach the same handler. -/
theorem Route_no_hidden_inputs {β γ : Type} (lower : Char → Char) (r1 : Router β)
    (r2 : Router γ) (q1 q2 : Request) (hr : r1.Rules = r2.Rules)
    (hm : q1.MetaBlob = q2.MetaBlob) (hh : q1.Host = q2.Host) :
    r1.Route lower q1 = r2.Route lower q2 ∧
      r1.Route lower { q1 with ReqType := Read } = r1.Route lower { q1 with ReqType := Write } ∧
      r1.dispatch lower Read q1 = r1.dispatch lower Write q1 := by
  have hrw : r1.Route lower { q1 with ReqType := Read }
      = r1.Route lower { q1 with ReqType := Write } :=
    routeRules_congr lower { q1 with ReqType := Read } { q1 with ReqType := Write } rfl rfl
      r1.Rules
  refine ⟨?_, hrw, ?_⟩
  · unfold Router.Route
    rw [hr]
    exact routeRules_congr lower q1 q2 hm hh r2.Rules
  · unfold Router.dispatch
    rw [hrw]

/-- Witness of C4: two routers with the rules of scenario C, different `Host` and
`Backends`, a read and a write of a meta blob from `srvA`. -/
theorem Route_no_hidden_inputs_witness :
    Router.Route Char.toLower (⟨scenarioRules.map Rule.toJson, "a", []⟩ : Router Unit)
        ⟨Read, true, "srvA"⟩
      = Router.Route Char.toLower
        (⟨scenarioRules.map Rule.toJson, "b", [("X", 7)]⟩ : Router Nat) ⟨Write, true, "srvA"⟩ :=
  (Route_no_hidden_inputs Char.toLower
    (⟨scenarioRules.map Rule.toJson, "a", []⟩ : Router Unit)
    (⟨scenarioRules.map Rule.toJson, "b", [("X", 7)]⟩ : Router Nat)
    ⟨Read, true, "srvA"⟩ ⟨Write, true, "srvA"⟩ rfl rfl rfl).1

/-- C5, as the code has it: `Router.ResolveBackends` returns one backend key per rule,
in rule order, so a key occurs in the result exactly when some rule names it and occurs
as many times as there are rules naming it. -/
theorem ResolveBackends_per_rule {β : Type} (rules : List Rule) (host : String)
    (backends : List (String × β)) :
    Router.ResolveBackends ⟨rules.map Rule.toJson, host, backends⟩
        = .ok (rules.map Rule.backend) ∧
      (∀ k, k ∈ rules.map Rule.backend ↔ ∃ r ∈ rules, r.backend = k) ∧
      (∀ k, (rules.map Rule.backend).count k = rules.countP (fun r => r.backend == k)) := by
  refine ⟨?_, ?_, ?_⟩
  · unfold Router.ResolveBackends
    rw [resolveRules_toJson]
    rfl
  · intro k
    simp [List.mem_map]
  · intro k
    rw [List.count, List.countP_map]
    rfl

/-- C5 as stated fails: two rules naming the backend `X` give `X` twice. -/
theorem ResolveBackends_repeats :
    Router.ResolveBackends (⟨sharedBackendRules.map Rule.toJson, "", []⟩ : Router Unit)
        = .ok ["X", "X"] ∧
      ¬ (["X", "X"] : List String).Nodup := by
  decide


/-! ## Lemmas on `KvStore.Put` -/

theorem contains_slash_iff (key : String) : Contains key "/" = true ↔ '/' ∈ key.data := by
  unfold Contains
  rw [show ("/" : String).data = ['/'] from rfl]
  generalize key.data = l
  induction l with
  | nil => simp [List.tails, List.isPrefixOf]
  | cons a l ih =>
    rw [List.tails, List.any_cons, Bool.or_eq_true, ih]
    simp only [List.isPrefixOf, Bool.and_true, beq_iff_eq, List.mem_cons]

/-- The five ways a run of `KvStore.Put` on a valid key can go. -/
theorem Put_shapes {σ : Type} (c : Collab σ) (s : σ) (key ref : String) (data : List Nat)
    (version : Int) (hkey : Contains key "/" = false) :
    let res0 := KvStore.newRecord c key ref data version
    let r := KvStore.Put c s key ref data version
    (∃ e, r.result = .error e ∧ r.trace = [.vkvPut res0 (.error e)]) ∨
    (∃ res e, r.result = .error e ∧
      r.trace = [.vkvPut res0 (.ok res), .metaBuild res (.error e)]) ∨
    (∃ res b e, r.result = .error e ∧
      r.trace = [.vkvPut res0 (.ok res), .metaBuild res (.ok b),
        .vkvSetMetaBlob key res.Version b.Hash (some e)]) ∨
    (∃ res b e, r.result = .error e ∧
      r.trace = [.vkvPut res0 (.ok res), .metaBuild res (.ok b),
        .vkvSetMetaBlob key res.Version b.Hash none, .blobStorePut b (some e)]) ∨
    (∃ res b, r.result = .ok res ∧
      r.trace = [.vkvPut res0 (.ok res), .metaBuild res (.ok b),
        .vkvSetMetaBlob key res.Version b.Hash none, .blobStorePut b none]) := by
  intro res0 r
  show _ ∨ _
  simp only [r, KvStore.Put, hkey, Bool.false_eq_true, if_false]
  rcases h1 : c.vkvPut s res0 with ⟨_ | res, s1⟩
  · exact Or.inl ⟨_, rfl, rfl⟩
  dsimp only
  rcases h2 : c.metaBuild s1 res with ⟨_ | b, s2⟩
  · exact Or.inr (Or.inl ⟨_, _, rfl, rfl⟩)
  dsimp only
  rcases h3 : c.vkvSetMetaBlob s2 key res.Version b.Hash with ⟨_ | e, s3⟩
  · dsimp only
    rcases h4 : c.blobStorePut s3 b with ⟨_ | e, s4⟩
    · exact Or.inr (Or.inr (Or.inr (Or.inr ⟨_, _, rfl, rfl⟩)))
    · exact Or.inr (Or.inr (Or.inr (Or.inl ⟨_, _, _, rfl, rfl⟩)))
  · exact Or.inr (Or.inr (Or.inl ⟨_, _, _, rfl, rfl⟩))


theorem newRecord_key {σ : Type} (c : Collab σ) (key ref : String) (data : List Nat)
    (version : Int) : (KvStore.newRecord c key ref data version).Key = key := by
  unfold KvStore.newRecord KeyValue.SetHexHash
  by_cases h : ref = ""
  · simp [h]
  · simp only [h, ne_eq, not_false_eq_true, if_true]
    cases c.hexDecode ref <;> rfl

theorem Put_invalid {σ : Type} (c : Collab σ) (s : σ) (key ref : String) (data : List Nat)
    (version : Int) (hkey : Contains key "/" = true) :
    KvStore.Put c s key ref data version = ⟨.error .ErrInvalidKey, s, []⟩ := by
  simp [KvStore.Put, hkey]

theorem split1 {α : Type} {a x : α} {pre post : List α} (h : [a] = pre ++ x :: post) :
    pre = [] ∧ x = a ∧ post = [] := by
  rcases pre with _ | ⟨p1, pre⟩
  · simp at h
    exact ⟨rfl, h.1.symm, h.2⟩
  · simp at h

theorem split2 {α : Type} {a b x : α} {pre post : List α} (h : [a, b] = pre ++ x :: post) :
    (pre = [] ∧ x = a ∧ post = [b]) ∨ (pre = [a] ∧ x = b ∧ post = []) := by
  rcases pre with _ | ⟨p1, pre⟩
  · simp at h
    exact Or.inl ⟨rfl, h.1.symm, h.2.symm⟩
  · simp only [List.cons_append, List.cons.injEq] at h
    obtain ⟨rfl, h⟩ := h
    obtain ⟨rfl, rfl, rfl⟩ := split1 h
    exact Or.inr ⟨rfl, rfl, rfl⟩

theorem split3 {α : Type} {a b c x : α} {pre post : List α}
    (h : [a, b, c] = pre ++ x :: post) :
    (pre = [] ∧ x = a ∧ post = [b, c]) ∨ (pre = [a] ∧ x = b ∧ post = [c]) ∨
      (pre = [a, b] ∧ x = c ∧ post = []) := by
  rcases pre with _ | ⟨p1, pre⟩
  · simp at h
    exact Or.inl ⟨rfl, h.1.symm, h.2.symm⟩
  · simp only [List.cons_append, List.cons.injEq] at h
    obtain ⟨rfl, h⟩ := h
    rcases split2 h with ⟨rfl, rfl, rfl⟩ | ⟨rfl, rfl, rfl⟩
    · exact Or.inr (Or.inl ⟨rfl, rfl, rfl⟩)
    · exact Or.inr (Or.inr ⟨rfl, rfl, rfl⟩)

theorem split4 {α : Type} {a b c d x : α} {pre post : List α}
    (h : [a, b, c, d] = pre ++ x :: post) :
    (pre = [] ∧ x = a ∧ post = [b, c, d]) ∨ (pre = [a] ∧ x = b ∧ post = [c, d]) ∨
      (pre = [a, b] ∧ x = c ∧ post = [d]) ∨ (pre = [a, b, c] ∧ x = d ∧ post = []) := by
  rcases pre with _ | ⟨p1, pre⟩
  · simp at h
    exact Or.inl ⟨rfl, h.1.symm, h.2.symm⟩
  · simp only [List.cons_append, List.cons.injEq] at h
    obtain ⟨rfl, h⟩ := h
    rcases split3 h with ⟨rfl, rfl, rfl⟩ | ⟨rfl, rfl, rfl⟩ | ⟨rfl, rfl, rfl⟩
    · exact Or.inr (Or.inl ⟨rfl, rfl, rfl⟩)
    · exact Or.inr (Or.inr (Or.inl ⟨rfl, rfl, rfl⟩))
    · exact Or.inr (Or.inr (Or.inr ⟨rfl, rfl, rfl⟩))

/-- C6: in every run of `KvStore.Put`, a call of `SetMetaBlob` is for the key of the
call and the version of the record the VKV `Put` left, with the hash of the meta blob
built from it, and comes after that `Put` has succeeded; the meta blob is handed to the
blob store only after `SetMetaBlob` has succeeded for its hash; a call that fails is the
last call made and its error is the result; and a successful `Put` has made the four
calls in order. -/
theorem Put_binding_order {σ : Type} (c : Collab σ) (s : σ) (key ref : String)
    (data : List Nat) (version : Int) :
    (∀ pre post k v h o,
        (KvStore.Put c s key ref data version).trace
          = pre ++ Event.vkvSetMetaBlob k v h o :: post →
        ∃ res b, Event.vkvPut (KvStore.newRecord c key ref data version) (.ok res) ∈ pre ∧
          Event.metaBuild res (.ok b) ∈ pre ∧ k = key ∧ v = res.Version ∧ h = b.Hash) ∧
      (∀ pre post b o,
        (KvStore.Put c s key ref data version).trace = pre ++ Event.blobStorePut b o :: post →
        ∃ v, Event.vkvSetMetaBlob key v b.Hash none ∈ pre) ∧
      (∀ pre post ev e,
        (KvStore.Put c s key ref data version).trace = pre ++ ev :: post →
        ev.err = some e →
        post = [] ∧ (KvStore.Put c s key ref data version).result = .error e) ∧
      (∀ res, (KvStore.Put c s key ref data version).result = .ok res →
        ∃ b, (KvStore.Put c s key ref data version).trace
          = [.vkvPut (KvStore.newRecord c key ref data version) (.ok res),
            .metaBuild res (.ok b), .vkvSetMetaBlob key res.Version b.Hash none,
            .blobStorePut b none]) := by
  by_cases hkey : Contains key "/" = true
  · rw [Put_invalid c s key ref data version hkey]
    refine ⟨?_, ?_, ?_, ?_⟩
    · intro pre post k v h o ht
      simp at ht
    · intro pre post b o ht
      simp at ht
    · intro pre post ev e ht
      simp at ht
    · intro res hr
      cases hr
  · simp only [Bool.not_eq_true] at hkey
    rcases Put_shapes c s key ref data version hkey with
      ⟨e, hr, ht⟩ | ⟨res, e, hr, ht⟩ | ⟨res, b, e, hr, ht⟩ | ⟨res, b, e, hr, ht⟩ |
      ⟨res, b, hr, ht⟩
    · rw [hr, ht]
      refine ⟨?_, ?_, ?_, ?_⟩
      · intro pre post k v h o hd
        obtain ⟨_, hx, _⟩ := split1 hd
        cases hx
      · intro pre post b0 o hd
        obtain ⟨_, hx, _⟩ := split1 hd
        cases hx
      · intro pre post ev e0 hd he
        obtain ⟨_, rfl, rfl⟩ := split1 hd
        simp only [Event.err, Option.some.injEq] at he
        exact ⟨rfl, by rw [he]⟩
      · intro res0 hres
        cases hres
    · rw [hr, ht]
      refine ⟨?_, ?_, ?_, ?_⟩
      · intro pre post k v h o hd
        rcases split2 hd with ⟨_, hx, _⟩ | ⟨_, hx, _⟩ <;> cases hx
      · intro pre post b0 o hd
        rcases split2 hd with ⟨_, hx, _⟩ | ⟨_, hx, _⟩ <;> cases hx
      · intro pre post ev e0 hd he
        rcases split2 hd with ⟨_, rfl, rfl⟩ | ⟨_, rfl, rfl⟩
        · simp [Event.err] at he
        · simp only [Event.err, Option.some.injEq] at he
          exact ⟨rfl, by rw [he]⟩
      · intro res0 hres
        cases hres
    · rw [hr, ht]
      refine ⟨?_, ?_, ?_, ?_⟩
      · intro pre post k v h o hd
        rcases split3 hd with ⟨_, hx, _⟩ | ⟨_, hx, _⟩ | ⟨rfl, hx, _⟩
        · cases hx
        · cases hx
        · cases hx
          exact ⟨res, b, by simp, by simp, rfl, rfl, rfl⟩
      · intro pre post b0 o hd
        rcases split3 hd with ⟨_, hx, _⟩ | ⟨_, hx, _⟩ | ⟨_, hx, _⟩ <;> cases hx
      · intro pre post ev e0 hd he
        rcases split3 hd with ⟨_, rfl, rfl⟩ | ⟨_, rfl, rfl⟩ | ⟨_, rfl, rfl⟩
        · simp [Event.err] at he
        · simp [Event.err] at he
        · simp only [Event.err, Option.some.injEq] at he
          exact ⟨rfl, by rw [he]⟩
      · intro res0 hres
        cases hres
    · rw [hr, ht]
      refine ⟨?_, ?_, ?_, ?_⟩
      · intro pre post k v h o hd
        rcases split4 hd with ⟨_, hx, _⟩ | ⟨_, hx, _⟩ | ⟨rfl, hx, _⟩ | ⟨_, hx, _⟩
        · cases hx
        · cases hx
        · cases hx
          exact ⟨res, b, by simp, by simp, rfl, rfl, rfl⟩
        · cases hx
      · intro pre post b0 o hd
        rcases split4 hd with ⟨_, hx, _⟩ | ⟨_, hx, _⟩ | ⟨_, hx, _⟩ | ⟨rfl, hx, _⟩
        · cases hx
        · cases hx
        · cases hx
        · cases hx
          exact ⟨res.Version, by simp⟩
      · intro pre post ev e0 hd he
        rcases split4 hd with ⟨_, rfl, rfl⟩ | ⟨_, rfl, rfl⟩ | ⟨_, rfl, rfl⟩ | ⟨_, rfl, rfl⟩
        · simp [Event.err] at he
        · simp [Event.err] at he
        · simp [Event.err] at he
        · simp only [Event.err, Option.some.injEq] at he
          exact ⟨rfl, by rw [he]⟩
      · intro res0 hres
        cases hres
    · rw [hr, ht]
      refine ⟨?_, ?_, ?_, ?_⟩
      · intro pre post k v h o hd
        rcases split4 hd with ⟨_, hx, _⟩ | ⟨_, hx, _⟩ | ⟨rfl, hx, _⟩ | ⟨_, hx, _⟩
        · cases hx
        · cases hx
        · cases hx
          exact ⟨res, b, by simp, by simp, rfl, rfl, rfl⟩
        · cases hx
      · intro pre post b0 o hd
        rcases split4 hd with ⟨_, hx, _⟩ | ⟨_, hx, _⟩ | ⟨_, hx, _⟩ | ⟨rfl, hx, _⟩
        · cases hx
        · cases hx
        · cases hx
        · cases hx
          exact ⟨res.Version, by simp⟩
      · intro pre post ev e0 hd he
        rcases split4 hd with ⟨_, rfl, rfl⟩ | ⟨_, rfl, rfl⟩ | ⟨_, rfl, rfl⟩ | ⟨_, rfl, rfl⟩ <;>
          simp [Event.err] at he
      · intro res0 hres
        cases hres
        exact ⟨b, rfl⟩


/-- Witness of C6: a `Put` on the in-memory store succeeds after the four calls. -/
theorem Put_binding_order_witness :
    (KvStore.Put memCollab MemStore.empty "k" "" [1] 1).result = .ok ⟨"k", 1, [1], []⟩ ∧
      ∃ b, (KvStore.Put memCollab MemStore.empty "k" "" [1] 1).trace
        = [.vkvPut (KvStore.newRecord memCollab "k" "" [1] 1) (.ok ⟨"k", 1, [1], []⟩),
          .metaBuild ⟨"k", 1, [1], []⟩ (.ok b),
          .vkvSetMetaBlob "k" (1 : Int) b.Hash none, .blobStorePut b none] :=
  ⟨by decide, (Put_binding_order memCollab MemStore.empty "k" "" [1] 1).2.2.2 _ (by decide)⟩

/-- C7: when the blob decodes to a record and a hash is already bound to its
`(key, version)` (the read returns a non-empty hash, the blob's own hash included),
`applyMetaFunc` returns success after that one read: no VKV `Put`, no `SetMetaBlob` and
no blob-store write is made, and the store is the one the read left; so on a store where
the read changes nothing, a second application leaves the store of the first. -/
theorem applyMetaFunc_bound {σ : Type} (c : Collab σ) (s : σ) (hash : String)
    (data : List Nat) (rkv : KeyValue) (h : String) (s1 : σ)
    (hd : c.UnserializeBlob data = .ok rkv)
    (hg : c.vkvGetMetaBlob s rkv.Key rkv.Version = (.ok h, s1)) (hne : h ≠ "") :
    KvStore.applyMetaFunc c s hash data
        = ⟨.ok (), s1, [.vkvGetMetaBlob rkv.Key rkv.Version (.ok h)]⟩ ∧
      (s1 = s →
        (KvStore.applyMetaFunc c (KvStore.applyMetaFunc c s hash data).store hash data).store
          = (KvStore.applyMetaFunc c s hash data).store) := by
  have h1 : KvStore.applyMetaFunc c s hash data
      = ⟨.ok (), s1, [.vkvGetMetaBlob rkv.Key rkv.Version (.ok h)]⟩ := by
    simp [KvStore.applyMetaFunc, hd, hg, hne]
  refine ⟨h1, ?_⟩
  intro hs
  subst hs
  rw [h1]
  show (KvStore.applyMetaFunc c s1 hash data).store = s1
  rw [h1]

/-- Witness of C7: the blob is applied once on the in-memory store, which binds the
hash `meta:k` to `("k", 1)`; the second application is the one read. -/
theorem applyMetaFunc_bound_witness :
    KvStore.applyMetaFunc memCollab
        (KvStore.applyMetaFunc memCollab MemStore.empty "meta:k" [1]).store "meta:k" [1]
      = ⟨.ok (), (KvStore.applyMetaFunc memCollab MemStore.empty "meta:k" [1]).store,
          [.vkvGetMetaBlob "k" 1 (.ok "meta:k")]⟩ :=
  (applyMetaFunc_bound memCollab
    (KvStore.applyMetaFunc memCollab MemStore.empty "meta:k" [1]).store "meta:k" [1]
    ⟨"k", 1, [1], []⟩ "meta:k"
    (KvStore.applyMetaFunc memCollab MemStore.empty "meta:k" [1]).store
    rfl rfl (by decide)).1

/-- C8, as the code has it: `applyMetaFunc` does not consult the supplied hash, its
run is the same for every hash; a blob that decodes to a record with no hash bound to
its `(key, version)` is applied through `KvStore.Put`, whatever hash is supplied. -/
theorem applyMetaFunc_ignores_hash {σ : Type} (c : Collab σ) (s : σ) (hash hash' : String)
    (data : List Nat) :
    KvStore.applyMetaFunc c s hash data = KvStore.applyMetaFunc c s hash' data ∧
      (∀ rkv s1, c.UnserializeBlob data = .ok rkv →
        c.vkvGetMetaBlob s rkv.Key rkv.Version = (.ok "", s1) →
        (KvStore.applyMetaFunc c s hash data).trace
            = .vkvGetMetaBlob rkv.Key rkv.Version (.ok "") ::
              (KvStore.Put c s1 rkv.Key (rkv.HexHash c) rkv.Data rkv.Version).trace ∧
          (KvStore.applyMetaFunc c s hash data).store
            = (KvStore.Put c s1 rkv.Key (rkv.HexHash c) rkv.Data rkv.Version).store) := by
  refine ⟨rfl, ?_⟩
  intro rkv s1 hd hg
  simp only [KvStore.applyMetaFunc, hd, hg, ne_eq, not_true_eq_false, if_false]
  cases (KvStore.Put c s1 rkv.Key (rkv.HexHash c) rkv.Data rkv.Version).result <;>
    exact ⟨rfl, rfl⟩

/-- Witness of C8 as amended: an unbound record on the in-memory store. -/
theorem applyMetaFunc_ignores_hash_witness :
    (KvStore.applyMetaFunc memCollab MemStore.empty "bad" [1]).trace
      = .vkvGetMetaBlob "k" 1 (.ok "") ::
        (KvStore.Put memCollab MemStore.empty "k" "" [1] 1).trace :=
  ((applyMetaFunc_ignores_hash memCollab MemStore.empty "bad" "meta:k" [1]).2
    ⟨"k", 1, [1], []⟩ MemStore.empty rfl rfl).1

/-- C8 as stated fails: on the in-memory store the blob decodes to the record
`("k", 1, [1])`, whose recomputed meta-blob hash is `meta:k`; handed over with the hash
`bad`, the record is put in the VKV store and `meta:k` is bound to it. -/
theorem applyMetaFunc_applies_mismatch :
    memCollab.UnserializeBlob [1] = .ok ⟨"k", 1, [1], []⟩ ∧
      (memCollab.metaBuild MemStore.empty ⟨"k", 1, [1], []⟩).1 = .ok ⟨"meta:k", [1]⟩ ∧
      "bad" ≠ "meta:k" ∧
      (KvStore.applyMetaFunc memCollab MemStore.empty "bad" [1]).trace
        = [.vkvGetMetaBlob "k" 1 (.ok ""),
          .vkvPut ⟨"k", 1, [1], []⟩ (.ok ⟨"k", 1, [1], []⟩),
          .metaBuild ⟨"k", 1, [1], []⟩ (.ok ⟨"meta:k", [1]⟩),
          .vkvSetMetaBlob "k" 1 "meta:k" none,
          .blobStorePut ⟨"meta:k", [1]⟩ none] := by
  decide

/-- C9: for a key holding the character `/`, `KvStore.Put` returns `ErrInvalidKey`,
calls no collaborator and leaves the store as it was, whatever the ref, data and
version; for a key without `/` the VKV `Put` of the new record is called, and an error
returned is the error of a call made to a collaborator. -/
theorem Put_invalid_key {σ : Type} (c : Collab σ) (s : σ) (key ref : String)
    (data : List Nat) (version : Int) :
    ('/' ∈ key.data →
        KvStore.Put c s key ref data version = ⟨.error .ErrInvalidKey, s, []⟩) ∧
      ('/' ∉ key.data →
        (∃ out rest, (KvStore.Put c s key ref data version).trace
          = .vkvPut (KvStore.newRecord c key ref data version) out :: rest) ∧
        ∀ e, (KvStore.Put c s key ref data version).result = .error e →
          ∃ ev ∈ (KvStore.Put c s key ref data version).trace, ev.err = some e) := by
  constructor
  · intro h
    exact Put_invalid c s key ref data version ((contains_slash_iff key).2 h)
  · intro h
    have hkey : Contains key "/" = false := by
      rw [← Bool.not_eq_true, contains_slash_iff]
      exact h
    rcases Put_shapes c s key ref data version hkey with
      ⟨e, hr, ht⟩ | ⟨res, e, hr, ht⟩ | ⟨res, b, e, hr, ht⟩ | ⟨res, b, e, hr, ht⟩ |
      ⟨res, b, hr, ht⟩
    all_goals
      rw [hr, ht]
      refine ⟨⟨_, _, rfl⟩, ?_⟩
      intro e0 he
      cases he
    · exact ⟨_, List.mem_singleton.2 rfl, rfl⟩
    · exact ⟨.metaBuild res (.error e), by simp, rfl⟩
    · exact ⟨.vkvSetMetaBlob key res.Version b.Hash (some e), by simp, rfl⟩
    · exact ⟨.blobStorePut b (some e), by simp, rfl⟩

/-- Witness of C9: the key `a/b` is rejected; with the key `ab` the error of the failing
VKV `Put` is the result. -/
theorem Put_invalid_key_witness :
    KvStore.Put failingCollab MemStore.empty "a/b" "" [1] 1
        = ⟨.error .ErrInvalidKey, MemStore.empty, []⟩ ∧
      ∃ ev ∈ (KvStore.Put failingCollab MemStore.empty "ab" "" [1] 1).trace,
        ev.err = some (.collab 1) :=
  ⟨(Put_invalid_key failingCollab MemStore.empty "a/b" "" [1] 1).1 (by decide),
    ((Put_invalid_key failingCollab MemStore.empty "ab" "" [1] 1).2 (by decide)).2 _
      (by decide)⟩


/-! ## The values of the sort index -/

theorem putUint64_bytes (v : Nat) :
    PutUint64 (List.replicate 20 0) v
      = [v / 2 ^ 56 % 256, v / 2 ^ 48 % 256, v / 2 ^ 40 % 256, v / 2 ^ 32 % 256,
          v / 2 ^ 24 % 256, v / 2 ^ 16 % 256, v / 2 ^ 8 % 256, v % 256]
        ++ List.replicate 12 0 := by
  simp [PutUint64]

theorem buildVal_eq (start : Int) (_id : ID) (hid : _id.Raw.length = 12) :
    buildVal start _id
      = [uint64 start / 2 ^ 56 % 256, uint64 start / 2 ^ 48 % 256,
          uint64 start / 2 ^ 40 % 256, uint64 start / 2 ^ 32 % 256,
          uint64 start / 2 ^ 24 % 256, uint64 start / 2 ^ 16 % 256,
          uint64 start / 2 ^ 8 % 256, uint64 start % 256] ++ _id.Raw := by
  unfold buildVal
  simp only [putUint64_bytes, copy]
  simp [hid]

theorem uint64_lt (start : Int) : uint64 start < 2 ^ 64 := by
  unfold uint64
  omega

theorem int64_uint64 (start : Int) (hlo : -2 ^ 63 ≤ start) (hhi : start < 2 ^ 63) :
    int64 (uint64 start) = start := by
  unfold int64 uint64
  split <;> omega

theorem uint64_bytes (v : Nat) (hv : v < 2 ^ 64) :
    v % 256 + v / 2 ^ 8 % 256 * 2 ^ 8 + v / 2 ^ 16 % 256 * 2 ^ 16 + v / 2 ^ 24 % 256 * 2 ^ 24
      + v / 2 ^ 32 % 256 * 2 ^ 32 + v / 2 ^ 40 % 256 * 2 ^ 40 + v / 2 ^ 48 % 256 * 2 ^ 48
      + v / 2 ^ 56 % 256 * 2 ^ 56 = v := by
  norm_num at hv ⊢
  omega

/-- C10: for an `int64` start version and a document id of 12 raw bytes, `buildVal`
gives 20 bytes, the 8-byte big-endian encoding of the start version (as a `uint64`)
followed by the raw bytes of the id, and `parseVal` reads back the start version and
the id made of the same raw bytes. -/
theorem buildVal_parseVal (start : Int) (_id : ID) (hlo : -2 ^ 63 ≤ start)
    (hhi : start < 2 ^ 63) (hid : _id.Raw.length = 12) :
    (buildVal start _id).length = 20 ∧
      buildVal start _id = bigEndian8 (uint64 start) ++ _id.Raw ∧
      (∀ b ∈ bigEndian8 (uint64 start), b < 256) ∧
      Uint64 (bigEndian8 (uint64 start)) = some (uint64 start) ∧
      parseVal (buildVal start _id) = some (start, FromRaw _id.Raw) ∧
      (FromRaw _id.Raw).Raw = _id.Raw := by
  have hbe : bigEndian8 (uint64 start)
      = [uint64 start / 2 ^ 56 % 256, uint64 start / 2 ^ 48 % 256,
          uint64 start / 2 ^ 40 % 256, uint64 start / 2 ^ 32 % 256,
          uint64 start / 2 ^ 24 % 256, uint64 start / 2 ^ 16 % 256,
          uint64 start / 2 ^ 8 % 256, uint64 start % 256] := by
    simp [bigEndian8, List.range, List.range.loop]
  have hval := uint64_bytes (uint64 start) (uint64_lt start)
  rw [hbe, buildVal_eq start _id hid]
  refine ⟨by simp [hid], rfl, ?_, ?_, ?_, rfl⟩
  · intro b hb
    simp only [List.mem_cons, List.mem_singleton, List.not_mem_nil, or_false] at hb
    rcases hb with h | h | h | h | h | h | h | h <;> (rw [h]; exact Nat.mod_lt _ (by decide))
  · simp only [Uint64, Option.some.injEq]
    exact hval
  · simp only [parseVal, List.take, List.cons_append, Uint64, List.drop, List.nil_append]
    rw [hval, int64_uint64 start hlo hhi]
    rfl

/-- Witness of C10: the start version `-2` and the id of raw bytes `1 .. 12`. -/
theorem buildVal_parseVal_witness :
    buildVal (-2) ⟨[1, 2, 3, 4, 5, 6, 7, 8, 9, 10, 11, 12], 1, 5, "c"⟩
        = [255, 255, 255, 255, 255, 255, 255, 254, 1, 2, 3, 4, 5, 6, 7, 8, 9, 10, 11, 12] ∧
      parseVal (buildVal (-2) ⟨[1, 2, 3, 4, 5, 6, 7, 8, 9, 10, 11, 12], 1, 5, "c"⟩)
        = some (-2, FromRaw [1, 2, 3, 4, 5, 6, 7, 8, 9, 10, 11, 12]) :=
  ⟨by decide,
    (buildVal_parseVal (-2) ⟨[1, 2, 3, 4, 5, 6, 7, 8, 9, 10, 11, 12], 1, 5, "c"⟩
      (by decide) (by decide) rfl).2.2.2.2.1⟩


/-! ## Lemmas on the keys of the sort index -/

theorem buildUint64Key_eq (v : Nat) :
    buildUint64Key v
      = [107, 58, v / 2 ^ 56 % 256, v / 2 ^ 48 % 256, v / 2 ^ 40 % 256, v / 2 ^ 32 % 256,
          v / 2 ^ 24 % 256, v / 2 ^ 16 % 256, v / 2 ^ 8 % 256, v % 256, 0, 0, 0, 0, 0, 0] := by
  simp [buildUint64Key, copy, PutUint64]

theorem randRead_five (rnd : List Nat) :
    randRead (List.replicate 5 0) rnd
      = if rnd.length < 5 then none else some (rnd.take 5) := by
  unfold randRead copy
  by_cases h : rnd.length < 5
  · simp [h]
  · have h5 : 5 ≤ rnd.length := Nat.le_of_not_lt h
    simp [h, h5]

/-- The key of a number whose 64-bit image is `u`. -/
theorem buildKey_of_uint64Key (v : Value) (u : Nat) (rnd : List Nat)
    (hs : buildKeySwitch v = .ok (buildUint64Key u, 8)) :
    buildKey v rnd =
      if rnd.length < 5 then .error (.panic "failed to build key")
      else .ok ([107, 58, u / 2 ^ 56 % 256, u / 2 ^ 48 % 256, u / 2 ^ 40 % 256,
        u / 2 ^ 32 % 256, u / 2 ^ 24 % 256, u / 2 ^ 16 % 256, u / 2 ^ 8 % 256, u % 256, 0]
        ++ rnd.take 5) := by
  unfold buildKey
  rw [hs]
  simp only [buildUint64Key_eq, List.drop, List.take]
  rw [randRead_five]
  by_cases h : rnd.length < 5
  · simp [h]
  · simp [h]

theorem image_bytes (u : Nat) :
    [(u % 2 ^ 64) / 2 ^ 56 % 256, (u % 2 ^ 64) / 2 ^ 48 % 256, (u % 2 ^ 64) / 2 ^ 40 % 256,
        (u % 2 ^ 64) / 2 ^ 32 % 256, (u % 2 ^ 64) / 2 ^ 24 % 256, (u % 2 ^ 64) / 2 ^ 16 % 256,
        (u % 2 ^ 64) / 2 ^ 8 % 256, (u % 2 ^ 64) % 256]
      = [u / 2 ^ 56 % 256, u / 2 ^ 48 % 256, u / 2 ^ 40 % 256, u / 2 ^ 32 % 256,
          u / 2 ^ 24 % 256, u / 2 ^ 16 % 256, u / 2 ^ 8 % 256, u % 256] := by
  simp only [List.cons.injEq, and_true, Nat.reducePow]
  refine ⟨?_, ?_, ?_, ?_, ?_, ?_, ?_, ?_⟩ <;> omega

theorem buildKey_of_uint64Key_mod (v : Value) (w : Nat) (rnd : List Nat)
    (hs : buildKeySwitch v = .ok (buildUint64Key w, 8)) :
    buildKey v rnd =
      if rnd.length < 5 then .error (.panic "failed to build key")
      else .ok ([107, 58, (w % 2 ^ 64) / 2 ^ 56 % 256, (w % 2 ^ 64) / 2 ^ 48 % 256,
        (w % 2 ^ 64) / 2 ^ 40 % 256, (w % 2 ^ 64) / 2 ^ 32 % 256, (w % 2 ^ 64) / 2 ^ 24 % 256,
        (w % 2 ^ 64) / 2 ^ 16 % 256, (w % 2 ^ 64) / 2 ^ 8 % 256, (w % 2 ^ 64) % 256, 0]
        ++ rnd.take 5) := by
  rw [buildKey_of_uint64Key v w rnd hs]
  have hb := image_bytes w
  simp only [List.cons.injEq, and_true] at hb
  obtain ⟨h1, h2, h3, h4, h5, h6, h7, h8⟩ := hb
  simp only [h1, h2, h3, h4, h5, h6, h7, h8]

/-- The key of a numeric field value, by its 64-bit image. -/
theorem buildKey_numeric (v : Value) (u : Nat) (rnd : List Nat) (hu : v.image = some u) :
    buildKey v rnd =
      if rnd.length < 5 then .error (.panic "failed to build key")
      else .ok ([107, 58, u / 2 ^ 56 % 256, u / 2 ^ 48 % 256, u / 2 ^ 40 % 256,
        u / 2 ^ 32 % 256, u / 2 ^ 24 % 256, u / 2 ^ 16 % 256, u / 2 ^ 8 % 256, u % 256, 0]
        ++ rnd.take 5) := by
  cases v with
  | string vv => simp [Value.image] at hu
  | slice => simp [Value.image] at hu
  | other => simp [Value.image] at hu
  | int vv | int8 vv | int16 vv | int32 vv | int64 vv =>
    simp only [Value.image, Option.some.injEq] at hu
    subst hu
    exact buildKey_of_uint64Key _ _ rnd rfl
  | uint8 vv | uint16 vv | uint32 vv | uint64 vv | float32 vv | float64 vv =>
    simp only [Value.image, Option.some.injEq] at hu
    subst hu
    exact buildKey_of_uint64Key_mod _ _ rnd rfl

theorem lexLt_append_left (p x y : List Nat) : lexLt (p ++ x) (p ++ y) = lexLt x y := by
  induction p with
  | nil => rfl
  | cons a p ih => simp [lexLt, ih]

theorem lexLt_cons (a b : Nat) (x y : List Nat) :
    lexLt (a :: x) (b :: y) = true ↔ a < b ∨ (a = b ∧ lexLt x y = true) := by
  simp [lexLt]

theorem lexLt_bigEndian (a b : Nat) (hab : a < b) (hb : b < 2 ^ 64) (x y : List Nat) :
    lexLt ([a / 2 ^ 56 % 256, a / 2 ^ 48 % 256, a / 2 ^ 40 % 256, a / 2 ^ 32 % 256,
        a / 2 ^ 24 % 256, a / 2 ^ 16 % 256, a / 2 ^ 8 % 256, a % 256] ++ x)
      ([b / 2 ^ 56 % 256, b / 2 ^ 48 % 256, b / 2 ^ 40 % 256, b / 2 ^ 32 % 256,
        b / 2 ^ 24 % 256, b / 2 ^ 16 % 256, b / 2 ^ 8 % 256, b % 256] ++ y) = true := by
  simp only [List.cons_append, List.nil_append, lexLt_cons, Nat.reducePow] at hb ⊢
  have s7 : a / 72057594037927936 % 256 < b / 72057594037927936 % 256 ∨
      (a / 72057594037927936 % 256 = b / 72057594037927936 % 256 ∧
        a / 72057594037927936 = b / 72057594037927936) := by omega
  rcases s7 with h | ⟨h, e7⟩
  · exact Or.inl h
  refine Or.inr ⟨h, ?_⟩
  have s6 : a / 281474976710656 % 256 < b / 281474976710656 % 256 ∨
      (a / 281474976710656 % 256 = b / 281474976710656 % 256 ∧
        a / 281474976710656 = b / 281474976710656) := by omega
  rcases s6 with h | ⟨h, e6⟩
  · exact Or.inl h
  refine Or.inr ⟨h, ?_⟩
  have s5 : a / 1099511627776 % 256 < b / 1099511627776 % 256 ∨
      (a / 1099511627776 % 256 = b / 1099511627776 % 256 ∧
        a / 1099511627776 = b / 1099511627776) := by omega
  rcases s5 with h | ⟨h, e5⟩
  · exact Or.inl h
  refine Or.inr ⟨h, ?_⟩
  have s4 : a / 4294967296 % 256 < b / 4294967296 % 256 ∨
      (a / 4294967296 % 256 = b / 4294967296 % 256 ∧ a / 4294967296 = b / 4294967296) := by
    omega
  rcases s4 with h | ⟨h, e4⟩
  · exact Or.inl h
  refine Or.inr ⟨h, ?_⟩
  have s3 : a / 16777216 % 256 < b / 16777216 % 256 ∨
      (a / 16777216 % 256 = b / 16777216 % 256 ∧ a / 16777216 = b / 16777216) := by omega
  rcases s3 with h | ⟨h, e3⟩
  · exact Or.inl h
  refine Or.inr ⟨h, ?_⟩
  have s2 : a / 65536 % 256 < b / 65536 % 256 ∨
      (a / 65536 % 256 = b / 65536 % 256 ∧ a / 65536 = b / 65536) := by omega
  rcases s2 with h | ⟨h, e2⟩
  · exact Or.inl h
  refine Or.inr ⟨h, ?_⟩
  have s1 : a / 256 % 256 < b / 256 % 256 ∨
      (a / 256 % 256 = b / 256 % 256 ∧ a / 256 = b / 256) := by omega
  rcases s1 with h | ⟨h, e1⟩
  · exact Or.inl h
  refine Or.inr ⟨h, ?_⟩
  exact Or.inl (by omega)

theorem intVal_image (v : Value) (a : Int) (ha : v.intVal = some a) (h0 : 0 ≤ a)
    (h64 : a < 2 ^ 64) : v.image = some a.toNat := by
  cases v with
  | string vv | float32 vv | float64 vv => simp [Value.intVal] at ha
  | slice => simp [Value.intVal] at ha
  | other => simp [Value.intVal] at ha
  | int vv | int8 vv | int16 vv | int32 vv | int64 vv =>
    simp only [Value.intVal, Option.some.injEq] at ha
    subst ha
    simp only [Value.image, uint64, Option.some.injEq]
    omega
  | uint8 vv | uint16 vv | uint32 vv | uint64 vv =>
    simp only [Value.intVal, Option.some.injEq] at ha
    subst ha
    simp only [Value.image, Option.some.injEq, Int.toNat_ofNat]
    omega

theorem buildKey_string (vv rnd : List Nat) :
    buildKey (.string vv) rnd =
      if rnd.length < 5 then .error (.panic "failed to build key")
      else .ok ([107, 58] ++ vv ++ [58] ++ rnd.take 5) := by
  have hk : buildKeySwitch (.string vv)
      = .ok ([107, 58] ++ vv ++ [58] ++ List.replicate 5 0, vv.length) := by
    simp only [buildKeySwitch, copy, Except.ok.injEq, Prod.mk.injEq, and_true]
    simp [List.take_replicate, List.drop_replicate, List.take_append_eq_append_take]
  have hd : ([107, 58] ++ vv ++ [58] ++ List.replicate 5 0).drop (vv.length + 3)
      = List.replicate 5 0 := by
    rw [List.drop_append_eq_append_drop]
    simp
  have ht : ([107, 58] ++ vv ++ [58] ++ List.replicate 5 0).take (vv.length + 3)
      = [107, 58] ++ vv ++ [58] := by
    rw [List.take_append_eq_append_take]
    simp
  unfold buildKey
  rw [hk]
  simp only [hd, ht, randRead_five]
  by_cases h : rnd.length < 5
  · simp [h]
  · simp [h]

/-! ## The claims on the keys of the sort index -/

/-- C11: for integer field values `0 ≤ a < b` of any integer type `buildKey` accepts,
whatever bytes the random source delivers, every key built for `a` is below every key
built for `b` in the byte-wise lexicographic order; and a key is built as soon as the
random source delivers its bytes. -/
theorem buildKey_numeric_order (va vb : Value) (a b : Int) (ra rb : List Nat)
    (ha : va.intVal = some a) (hb : vb.intVal = some b) (h0 : 0 ≤ a) (hab : a < b)
    (h64 : b < 2 ^ 64) :
    (∀ ka kb, buildKey va ra = .ok ka → buildKey vb rb = .ok kb → lexLt ka kb = true) ∧
      (5 ≤ ra.length → ∃ ka, buildKey va ra = .ok ka) := by
  have hia := intVal_image va a ha h0 (by omega)
  have hib := intVal_image vb b hb (by omega) h64
  rw [buildKey_numeric va _ ra hia, buildKey_numeric vb _ rb hib]
  constructor
  · intro ka kb hka hkb
    by_cases h1 : ra.length < 5
    · simp [h1] at hka
    by_cases h2 : rb.length < 5
    · simp [h2] at hkb
    simp only [h1, h2, if_false, Except.ok.injEq] at hka hkb
    subst hka hkb
    have hlt : a.toNat < b.toNat := by omega
    have hb64 : b.toNat < 2 ^ 64 := by omega
    have := lexLt_bigEndian a.toNat b.toNat hlt hb64 (0 :: ra.take 5) (0 :: rb.take 5)
    exact (lexLt_append_left [107, 58] _ _).trans this
  · intro h5
    have h1 : ¬ ra.length < 5 := by omega
    simp [h1]

/-- Witness of C11: the `int8` value 5 and the `uint64` value 2^63, with two random
suffixes. -/
theorem buildKey_numeric_order_witness :
    lexLt [107, 58, 0, 0, 0, 0, 0, 0, 0, 5, 0, 255, 255, 255, 255, 255]
      [107, 58, 128, 0, 0, 0, 0, 0, 0, 0, 0, 0, 0, 0, 0, 0] = true :=
  (buildKey_numeric_order (.int8 5) (.uint64 (2 ^ 63)) 5 (2 ^ 63)
    [255, 255, 255, 255, 255] [0, 0, 0, 0, 0] rfl (by simp [Value.intVal]) (by decide)
    (by decide) (by decide)).1 _ _ (by decide) (by decide)

theorem image_lt (v : Value) (u : Nat) (hu : v.image = some u) : u < 2 ^ 64 := by
  cases v with
  | string vv => simp [Value.image] at hu
  | slice => simp [Value.image] at hu
  | other => simp [Value.image] at hu
  | int vv | int8 vv | int16 vv | int32 vv | int64 vv =>
    simp only [Value.image, Option.some.injEq] at hu
    subst hu
    exact uint64_lt vv
  | uint8 vv | uint16 vv | uint32 vv | uint64 vv | float32 vv | float64 vv =>
    simp only [Value.image, Option.some.injEq] at hu
    subst hu
    exact Nat.mod_lt _ (by decide)

/-- C12, on the code: the key of a string field value is the bytes `k:`, the bytes of
the string, the separator `:` and 5 bytes of the random source, `len(s) + 8` bytes in
all, every byte written; the slice is made with `klen+8` bytes, so the separator takes
one of the 6 bytes that the comment of the source reserves for the random suffix. -/
theorem buildKey_string_suffix (vv rnd : List Nat) :
    buildKey (.string vv) rnd
        = (if rnd.length < 5 then .error (.panic "failed to build key")
          else .ok ([107, 58] ++ vv ++ [58] ++ rnd.take 5)) ∧
      (∀ key, buildKey (.string vv) rnd = .ok key →
        key = [107, 58] ++ vv ++ [58] ++ rnd.take 5 ∧ (rnd.take 5).length = 5 ∧
          key.length = vv.length + 8) ∧
      buildKey (.string [97, 98]) [1, 2, 3, 4, 5, 6]
        = .ok [107, 58, 97, 98, 58, 1, 2, 3, 4, 5] := by
  refine ⟨buildKey_string vv rnd, ?_, by decide⟩
  intro key hk
  rw [buildKey_string] at hk
  by_cases h : rnd.length < 5
  · simp [h] at hk
  · simp only [h, if_false, Except.ok.injEq] at hk
    have h5 : (rnd.take 5).length = 5 := by
      rw [List.length_take]
      omega
    subst hk
    refine ⟨rfl, h5, ?_⟩
    simp only [List.length_append, List.length_cons, List.length_nil, h5]
    omega

/-- C13, as the code has it: the key of a string field value whose first byte is below
`0xff` is below the default start `"k:\xff"` of `Iter`, and the key of a numeric field
value is below it exactly when its 64-bit image is below `0xff * 2^56`, whatever the
random suffix. -/
theorem buildKey_below_start (v : Value) (rnd key : List Nat)
    (hk : buildKey v rnd = .ok key) :
    (∀ vv, v = .string vv → (∀ b, vv.head? = some b → b < 255) →
        lexLt key defaultStart = true) ∧
      (∀ u, v.image = some u → (lexLt key defaultStart = true ↔ u < 255 * 2 ^ 56)) := by
  constructor
  · intro vv hv hb
    subst hv
    rw [buildKey_string] at hk
    by_cases h : rnd.length < 5
    · simp [h] at hk
    simp only [h, if_false, Except.ok.injEq] at hk
    subst hk
    cases vv with
    | nil => simp [defaultStart, lexLt]
    | cons b t =>
      have := hb b rfl
      simp [defaultStart, lexLt, this]
  · intro u hu
    have h64 := image_lt v u hu
    rw [buildKey_numeric v u rnd hu] at hk
    by_cases h : rnd.length < 5
    · simp [h] at hk
    simp only [h, if_false, Except.ok.injEq] at hk
    subst hk
    have hl : lexLt ([107, 58, u / 2 ^ 56 % 256, u / 2 ^ 48 % 256, u / 2 ^ 40 % 256,
        u / 2 ^ 32 % 256, u / 2 ^ 24 % 256, u / 2 ^ 16 % 256, u / 2 ^ 8 % 256, u % 256, 0]
        ++ rnd.take 5) defaultStart = decide (u / 2 ^ 56 % 256 < 255) := by
      simp [defaultStart, lexLt]
    rw [hl, decide_eq_true_eq]
    simp only [Nat.reducePow] at h64 ⊢
    omega

/-- Witness of C13 as amended: the `int64` value 5. -/
theorem buildKey_below_start_witness :
    lexLt [107, 58, 0, 0, 0, 0, 0, 0, 0, 5, 0, 9, 9, 9, 9, 9] defaultStart = true :=
  ((buildKey_below_start (.int64 5) [9, 9, 9, 9, 9] _ (by decide)).2 5 (by decide)).2
    (by decide)

/-- C13 as stated fails: the `int64` value -1 is accepted by `buildKey`, and its key is
not below `"k:\xff"`. -/
theorem buildKey_negative_above_start :
    buildKey (.int64 (-1)) [1, 2, 3, 4, 5]
        = .ok [107, 58, 255, 255, 255, 255, 255, 255, 255, 255, 0, 1, 2, 3, 4, 5] ∧
      lexLt [107, 58, 255, 255, 255, 255, 255, 255, 255, 255, 0, 1, 2, 3, 4, 5] defaultStart
        = false := by
  decide

/-! ## Lemmas on `Iter` -/

theorem parseVal_of_length (d : List Nat) (h : 8 ≤ d.length) :
    ∃ vstart _id, parseVal d = some (vstart, _id) := by
  rcases d with _ | ⟨b0, _ | ⟨b1, _ | ⟨b2, _ | ⟨b3, _ | ⟨b4, _ | ⟨b5, _ | ⟨b6, _ | ⟨b7, t⟩⟩⟩⟩⟩⟩⟩⟩ <;>
    simp at h
  exact ⟨_, _, rfl⟩

theorem iterLoop_latest (env : IterEnv) (res : List SortKv) (acc : List ID)
    (hwf : ∀ kv ∈ res, kv.wellFormed = true) :
    iterLoop env 0 res acc = .ok (acc ++ (res.filter keptLatest).map (entryID env)) := by
  induction res generalizing acc with
  | nil => simp [iterLoop]
  | cons kv rest ih =>
    have hrest : ∀ kv ∈ rest, kv.wellFormed = true :=
      fun k hk => hwf k (List.mem_cons_of_mem _ hk)
    have hkv := hwf kv (List.mem_cons_self _ _)
    unfold iterLoop
    by_cases h0 : kv.Data.length = 0
    · simp [h0, ih _ hrest, keptLatest, List.filter_cons]
    · have h8 : 8 ≤ kv.Data.length := by
        simp only [SortKv.wellFormed, Bool.or_eq_true, beq_iff_eq, decide_eq_true_eq] at hkv
        omega
      obtain ⟨vstart, _id, hp⟩ := parseVal_of_length kv.Data h8
      have hv : kv.vstart = vstart := by simp [SortKv.vstart, hp]
      by_cases hk : vstart = kv.Version
      · simp [h0, hp, hk, ih _ hrest, keptLatest, List.filter_cons, hv, entryID]
      · simp [h0, hp, hk, ih _ hrest, keptLatest, List.filter_cons, hv]

theorem iterLoop_asOf (env : IterEnv) (asOf : Int) (hpos : 0 < asOf) (res : List SortKv)
    (acc : List ID) (hwf : ∀ kv ∈ res, kv.wellFormed = true)
    (hord : ∀ kv ∈ res, kv.Data.length ≠ 0 → kv.vstart ≤ kv.Version) :
    iterLoop env asOf res acc
      = .ok (acc ++ (res.filter (keptAsOf asOf)).map (entryID env)) := by
  induction res generalizing acc with
  | nil => simp [iterLoop]
  | cons kv rest ih =>
    have hrest : ∀ kv ∈ rest, kv.wellFormed = true :=
      fun k hk => hwf k (List.mem_cons_of_mem _ hk)
    have hordr : ∀ kv ∈ rest, kv.Data.length ≠ 0 → kv.vstart ≤ kv.Version :=
      fun k hk => hord k (List.mem_cons_of_mem _ hk)
    have hkv := hwf kv (List.mem_cons_self _ _)
    have hne : asOf ≠ 0 := by omega
    unfold iterLoop
    by_cases h0 : kv.Data.length = 0
    · simp [h0, ih _ hrest hordr, keptAsOf, List.filter_cons]
    · have h8 : 8 ≤ kv.Data.length := by
        simp only [SortKv.wellFormed, Bool.or_eq_true, beq_iff_eq, decide_eq_true_eq] at hkv
        omega
      obtain ⟨vstart, _id, hp⟩ := parseVal_of_length kv.Data h8
      have hv : kv.vstart = vstart := by simp [SortKv.vstart, hp]
      have hle : vstart ≤ kv.Version := hv ▸ hord kv (List.mem_cons_self _ _) h0
      by_cases hk : keptAsOf asOf kv = true
      · have hk' := hk
        simp only [keptAsOf, hv, Bool.and_eq_true, Bool.or_eq_true, decide_eq_true_eq,
          beq_iff_eq, bne_iff_ne] at hk'
        have hskip : ¬ (asOf > 0 ∧ ((vstart = kv.Version ∧ asOf < vstart) ∨
            (kv.Version > vstart ∧ ¬ (asOf ≥ vstart ∧ asOf < kv.Version)))) := by omega
        simp only [h0, if_false, hp, hne, false_and, hskip, List.filter_cons, hk, if_true,
          List.map_cons]
        rw [ih _ hrest hordr]
        simp [entryID, hp]
      · have hk' := hk
        simp only [keptAsOf, hv, Bool.and_eq_true, Bool.or_eq_true, decide_eq_true_eq,
          beq_iff_eq, bne_iff_ne, not_and, not_or] at hk'
        have hskip : asOf > 0 ∧ ((vstart = kv.Version ∧ asOf < vstart) ∨
            (kv.Version > vstart ∧ ¬ (asOf ≥ vstart ∧ asOf < kv.Version))) := by
          by_cases hva : vstart ≤ asOf
          · have := hk' ⟨h0, hva⟩
            omega
          · omega
        simp only [h0, if_false, hp, hne, false_and, hskip, List.filter_cons, hk, if_true]
        rw [ih _ hrest hordr]
        simp

/-! ## The claims on `Iter` -/

/-- C14: with `asOf = 0`, when the scan succeeds on well-formed entries (data empty or
holding a start version), `Iter` returns in scan order exactly the ids of the scanned
entries whose data is non-empty and whose stored start version equals the version of
the entry, each with its version set to the start version; after indexing `d1` at
version 1 (field 5) and at version 2 (field 3) it returns exactly `d1` at version 2. -/
theorem Iter_latest {σ : Type} (si : sortIndex σ) (env : IterEnv) (s s1 : σ)
    (collection cursor : String) (fetchLimit : Int) (start next : List Nat)
    (res : List SortKv) (hstart : iterStart env cursor = .ok start)
    (hscan : si.db.ReverseKeys s [107, 58] start 50 = (.ok (res, next), s1))
    (hwf : ∀ kv ∈ res, kv.wellFormed = true) :
    (si.Iter env s collection cursor fetchLimit 0).result
        = .ok ((res.filter keptLatest).map (entryID env), env.EncodeToString next) ∧
      (∀ kv ∈ res.filter keptLatest,
        (entryID env kv).Version = kv.vstart ∧ kv.vstart = kv.Version ∧
          parseVal kv.Data = some (kv.vstart, FromRaw (entryID env kv).Raw)) ∧
      idsOf (demoIndex.Iter demoEnv storeD "" "" fetchLimit 0) = some [(d1, 2)] := by
  refine ⟨?_, ?_, by rfl⟩
  · simp only [sortIndex.Iter, hstart, hscan]
    rw [iterLoop_latest env res [] hwf]
    rfl
  · intro kv hkv
    have hmem := (List.mem_filter.1 hkv).1
    have hk := (List.mem_filter.1 hkv).2
    simp only [keptLatest, Bool.and_eq_true, bne_iff_ne, beq_iff_eq, ne_eq] at hk
    have hw := hwf kv hmem
    have h8 : 8 ≤ kv.Data.length := by
      simp only [SortKv.wellFormed, Bool.or_eq_true, beq_iff_eq, decide_eq_true_eq] at hw
      omega
    obtain ⟨vstart, _id, hp⟩ := parseVal_of_length kv.Data h8
    have hv : kv.vstart = vstart := by simp [SortKv.vstart, hp]
    refine ⟨?_, hk.2, ?_⟩
    · simp [entryID, hp, hv, ID.Version, ID.SetCursor, ID.SetVersion]
    · rw [hp, hv]
      have : _id = FromRaw (entryID env kv).Raw := by
        unfold parseVal at hp
        cases hu : Uint64 (List.take 8 kv.Data) with
        | none => simp [hu] at hp
        | some u =>
          simp only [hu, Option.some.injEq, Prod.mk.injEq] at hp
          rw [← hp.2]
          simp [entryID, parseVal, hu, ID.Raw, ID.SetCursor, ID.SetVersion, FromRaw]
      rw [← this]

/-- Witness of C14: the scan of the store of scenario D from the default start. -/
theorem Iter_latest_witness :
    (demoIndex.Iter demoEnv storeD "" "" 10 0).result
      = .ok (((storeD.ReverseKeys [107, 58] defaultStart 50).1.filter keptLatest).map
          (entryID demoEnv),
        demoEnv.EncodeToString (storeD.ReverseKeys [107, 58] defaultStart 50).2) :=
  (Iter_latest demoIndex demoEnv storeD storeD "" "" 10 defaultStart _ _ rfl rfl
    (by decide)).1

/-- C15, as the code has it: with `asOf > 0`, when the scan succeeds on well-formed
entries whose start version is not above their version, `Iter` keeps an entry with
non-empty data exactly when `vstart ≤ asOf` and either `asOf < version` or the entry is
still authoritative (`version = vstart`); for a superseded entry (`vstart < version`)
this is `asOf` in `[vstart, version)`; after indexing `d1` at version 1 and at
version 2, `Iter` with `asOf = 1` returns `d1` at version 1. -/
theorem Iter_asOf {σ : Type} (si : sortIndex σ) (env : IterEnv) (s s1 : σ)
    (collection cursor : String) (fetchLimit asOf : Int) (start next : List Nat)
    (res : List SortKv) (hpos : 0 < asOf) (hstart : iterStart env cursor = .ok start)
    (hscan : si.db.ReverseKeys s [107, 58] start 50 = (.ok (res, next), s1))
    (hwf : ∀ kv ∈ res, kv.wellFormed = true)
    (hord : ∀ kv ∈ res, kv.Data.length ≠ 0 → kv.vstart ≤ kv.Version) :
    (si.Iter env s collection cursor fetchLimit asOf).result
        = .ok ((res.filter (keptAsOf asOf)).map (entryID env), env.EncodeToString next) ∧
      (∀ kv : SortKv, kv.vstart < kv.Version → keptAsOf asOf kv = inSlot asOf kv) ∧
      idsOf (demoIndex.Iter demoEnv storeD "" "" fetchLimit 1) = some [(d1, 1)] := by
  refine ⟨?_, ?_, by rfl⟩
  · simp only [sortIndex.Iter, hstart, hscan]
    rw [iterLoop_asOf env asOf hpos res [] hwf hord]
    rfl
  · intro kv hlt
    have hne : (kv.Version == kv.vstart) = false := by
      rw [beq_eq_false_iff_ne]
      omega
    simp only [keptAsOf, inSlot, hne, Bool.or_false]

/-- Witness of C15 as amended: the scan of the store of scenario D at `asOf = 1`. -/
theorem Iter_asOf_witness :
    (demoIndex.Iter demoEnv storeD "" "" 10 1).result
      = .ok (((storeD.ReverseKeys [107, 58] defaultStart 50).1.filter (keptAsOf 1)).map
          (entryID demoEnv),
        demoEnv.EncodeToString (storeD.ReverseKeys [107, 58] defaultStart 50).2) :=
  (Iter_asOf demoIndex demoEnv storeD storeD "" "" 10 1 defaultStart _ _ (by decide) rfl rfl
    (by decide) (by decide)).1

/-- C15 as stated fails: after indexing `d1` at version 1 only, the scanned entry has
`vstart = version = 1`, so `asOf = 5` is not in `[vstart, version)`, and `Iter` with
`asOf = 5` keeps it. -/
theorem Iter_asOf_keeps_live :
    (storeD1.ReverseKeys [107, 58] defaultStart 50).1.map
        (fun kv => (kv.vstart, kv.Version, inSlot 5 kv)) = [(1, 1, false)] ∧
      idsOf (demoIndex.Iter demoEnv storeD1 "" "" 10 5) = some [(d1, 1)] := by
  decide

/-- C16, on the code: `Iter` never reads `fetchLimit`: the limit it passes to
`ReverseKeys` is the constant 50, two calls that differ only in `fetchLimit` are the
same run, and with two live documents in the index a call with `fetchLimit = 1` returns
two ids. -/
theorem Iter_ignores_fetchLimit {σ : Type} (si : sortIndex σ) (env : IterEnv) (s : σ)
    (collection cursor : String) (fetchLimit fetchLimit' asOf : Int) :
    si.Iter env s collection cursor fetchLimit asOf
        = si.Iter env s collection cursor fetchLimit' asOf ∧
      (∀ start stop limit out,
        DbEvent.ReverseKeys start stop limit out
            ∈ (si.Iter env s collection cursor fetchLimit asOf).trace →
          limit = 50) ∧
      idsOf (demoIndex.Iter demoEnv storeTwo "" "" 1 0) = some [(d2, 1), (d1, 1)] := by
  refine ⟨rfl, ?_, by decide⟩
  intro start stop limit out hmem
  unfold sortIndex.Iter at hmem
  cases hst : iterStart env cursor with
  | error e => simp [hst] at hmem
  | ok st =>
    simp only [hst] at hmem
    rcases hrk : si.db.ReverseKeys s [107, 58] st 50 with ⟨_ | ⟨res, next⟩, s1⟩
    · simp [hrk] at hmem
      exact hmem.2.2.1
    · simp only [hrk] at hmem
      cases hl : iterLoop env asOf res [] with
      | error e =>
        simp [hl] at hmem
        exact hmem.2.2.1
      | ok ids =>
        simp [hl] at hmem
        exact hmem.2.2.1

/-! ## Lemmas on `Index` -/

theorem hexDigit_inj : ∀ x < 16, ∀ y < 16, hexDigit x = hexDigit y → x = y := by
  decide

theorem hexChars_inj : ∀ as bs : List Nat, (∀ b ∈ as, b < 256) → (∀ b ∈ bs, b < 256) →
    as.flatMap (fun b => [hexDigit (b / 16 % 16), hexDigit (b % 16)])
      = bs.flatMap (fun b => [hexDigit (b / 16 % 16), hexDigit (b % 16)]) → as = bs
  | [], [], _, _, _ => rfl
  | [], _ :: _, _, _, h => by simp [List.flatMap] at h
  | _ :: _, [], _, _, h => by simp [List.flatMap] at h
  | a :: as, b :: bs, ha, hb, h => by
    simp only [List.flatMap_cons, List.cons_append, List.nil_append, List.cons.injEq] at h
    obtain ⟨h1, h2, h3⟩ := h
    have ha' := ha a (List.mem_cons_self _ _)
    have hb' := hb b (List.mem_cons_self _ _)
    have e1 := hexDigit_inj _ (Nat.mod_lt _ (by decide)) _ (Nat.mod_lt _ (by decide)) h1
    have e2 := hexDigit_inj _ (Nat.mod_lt _ (by decide)) _ (Nat.mod_lt _ (by decide)) h2
    have hab : a = b := by omega
    have ih := hexChars_inj as bs (fun x hx => ha x (List.mem_cons_of_mem _ hx))
      (fun x hx => hb x (List.mem_cons_of_mem _ hx)) h3
    rw [hab, ih]

theorem idString_eq_iff (i j : ID) (hi : ∀ b ∈ i.Raw, b < 256) (hj : ∀ b ∈ j.Raw, b < 256) :
    i.String = j.String ↔ i.Raw = j.Raw := by
  constructor
  · intro h
    unfold ID.String hexString at h
    exact hexChars_inj i.data j.data hi hj (congrArg String.data h)
  · intro h
    unfold ID.String
    unfold ID.Raw at h
    rw [h]

theorem indexTail_deleted {σ : Type} (si : sortIndex σ) (flagDeleted : Nat) (s : σ)
    (rnd : List Nat) (_id : ID) (doc : List (String × Value)) (key : List Nat)
    (tr : List DbEvent) (hflag : _id.Flag = flagDeleted) :
    si.indexTail flagDeleted s rnd _id doc key tr = ⟨.ok (), s, tr⟩ := by
  simp [sortIndex.indexTail, hflag]

theorem indexTail_trace {σ : Type} (si : sortIndex σ) (flagDeleted : Nat) (s : σ)
    (rnd : List Nat) (_id : ID) (doc : List (String × Value)) (key : List Nat)
    (tr : List DbEvent) :
    ∃ rest, (si.indexTail flagDeleted s rnd _id doc key tr).trace = tr ++ rest := by
  unfold sortIndex.indexTail
  by_cases hflag : _id.Flag = flagDeleted
  · exact ⟨[], by simp [hflag]⟩
  simp only [hflag, if_false]
  cases hf : si.fields with
  | nil => exact ⟨[], by simp⟩
  | cons field0 fs =>
    simp only
    generalize (if field0 = "_updated" then Value.int64 _id.Version
      else (doc.lookup field0).getD Value.other) = v
    cases hk : buildKey v rnd with
    | error e => exact ⟨[], by simp⟩
    | ok sortKey =>
      simp only
      rcases hp1 : si.db.Put s ⟨sortKey, buildVal _id.Version _id, _id.Version⟩ with
        ⟨_ | e1, s1⟩
      · simp only
        rcases hp2 : si.db.Put s1 ⟨key, sortKey, 0⟩ with ⟨_ | e2, s2⟩
        · exact ⟨_, rfl⟩
        · exact ⟨_, rfl⟩
      · exact ⟨_, rfl⟩

theorem indexTail_cases {σ : Type} (si : sortIndex σ) (flagDeleted : Nat) (s : σ)
    (rnd : List Nat) (_id : ID) (doc : List (String × Value)) (key : List Nat)
    (tr : List DbEvent) :
    (_id.Flag = flagDeleted →
        si.indexTail flagDeleted s rnd _id doc key tr = ⟨.ok (), s, tr⟩) ∧
      (_id.Flag ≠ flagDeleted → si.fields = [] →
        si.indexTail flagDeleted s rnd _id doc key tr
          = ⟨.error (.panic "index out of range"), s, tr⟩) ∧
      (∀ field0 fs, _id.Flag ≠ flagDeleted → si.fields = field0 :: fs →
        (∀ e, buildKey (if field0 = "_updated" then Value.int64 _id.Version
              else (doc.lookup field0).getD Value.other) rnd = .error e →
            si.indexTail flagDeleted s rnd _id doc key tr = ⟨.error e, s, tr⟩) ∧
          (∀ sortKey err1 s4,
            buildKey (if field0 = "_updated" then Value.int64 _id.Version
              else (doc.lookup field0).getD Value.other) rnd = .ok sortKey →
            si.db.Put s ⟨sortKey, buildVal _id.Version _id, _id.Version⟩ = (err1, s4) →
            (∀ e, err1 = some e →
                si.indexTail flagDeleted s rnd _id doc key tr
                  = ⟨.error e, s4,
                    tr ++ [.Put ⟨sortKey, buildVal _id.Version _id, _id.Version⟩ (some e)]⟩) ∧
              (err1 = none → ∀ err2 s5, si.db.Put s4 ⟨key, sortKey, 0⟩ = (err2, s5) →
                si.indexTail flagDeleted s rnd _id doc key tr
                  = ⟨resultOf err2, s5,
                    tr ++ [.Put ⟨sortKey, buildVal _id.Version _id, _id.Version⟩ none,
                      .Put ⟨key, sortKey, 0⟩ err2]⟩))) := by
  refine ⟨fun h => indexTail_deleted si flagDeleted s rnd _id doc key tr h, ?_, ?_⟩
  · intro hflag hf
    simp [sortIndex.indexTail, hflag, hf]
  · intro field0 fs hflag hf
    constructor
    · intro e hk
      simp [sortIndex.indexTail, hflag, hf, hk]
    · intro sortKey err1 s4 hk hp1
      constructor
      · intro e he
        subst he
        simp [sortIndex.indexTail, hflag, hf, hk, hp1]
      · intro he err2 s5 hp2
        subst he
        cases err2 with
        | none => simp [sortIndex.indexTail, hflag, hf, hk, hp1, hp2, resultOf]
        | some e => simp [sortIndex.indexTail, hflag, hf, hk, hp1, hp2, resultOf]

theorem memGet_Put_other (m : MemVkv) (kv : SortKv) (key : List Nat) (version : Int)
    (h : key ≠ kv.Key) : (m.Put kv).Get key version = m.Get key version := by
  have hkv : (kv.Key == key) = false := by
    rw [beq_eq_false_iff_ne]
    exact fun e => h e.symm
  unfold MemVkv.Get MemVkv.Put
  simp only [List.filter_cons, hkv, Bool.false_and, Bool.false_eq_true, if_false,
    List.filter_filter]
  congr 2
  apply List.filter_congr
  intro r _
  by_cases hr : r.Key = key
  · have : (r.Key == kv.Key) = false := by
      rw [beq_eq_false_iff_ne, hr]
      exact h
    simp [this]
  · have : (r.Key == key) = false := by
      rw [beq_eq_false_iff_ne]
      exact hr
    simp [this]

theorem Index_deleted_cases {σ : Type} (si : sortIndex σ) (flagDeleted : Nat) (s : σ)
    (rnd : List Nat) (_id : ID) (doc : List (String × Value))
    (hflag : _id.Flag = flagDeleted) :
    (∀ e s1, si.db.Get s (buildLastVersionKey _id) (-1) = (.error e, s1) →
        si.Index flagDeleted s rnd _id doc
          = ⟨if e = .ErrNotFound then .ok () else .error e, s1,
            [.Get (buildLastVersionKey _id) (-1) (.error e)]⟩) ∧
      (∀ ptr s1, si.db.Get s (buildLastVersionKey _id) (-1) = (.ok ptr, s1) →
        (∀ e s2, si.db.Get s1 ptr.Data (-1) = (.error e, s2) →
            si.Index flagDeleted s rnd _id doc
              = ⟨.error e, s2, [.Get (buildLastVersionKey _id) (-1) (.ok ptr),
                .Get ptr.Data (-1) (.error e)]⟩) ∧
          (∀ old s2, si.db.Get s1 ptr.Data (-1) = (.ok old, s2) →
            (old.Data.length = 0 →
                si.Index flagDeleted s rnd _id doc
                  = ⟨.ok (), s2, [.Get (buildLastVersionKey _id) (-1) (.ok ptr),
                    .Get ptr.Data (-1) (.ok old)]⟩) ∧
              (old.Data.length ≠ 0 → parseVal old.Data = none →
                si.Index flagDeleted s rnd _id doc
                  = ⟨.error (.panic "slice bounds out of range"), s2,
                    [.Get (buildLastVersionKey _id) (-1) (.ok ptr),
                      .Get ptr.Data (-1) (.ok old)]⟩) ∧
              (∀ vs oid, old.Data.length ≠ 0 → parseVal old.Data = some (vs, oid) →
                (oid.String ≠ _id.String →
                    si.Index flagDeleted s rnd _id doc
                      = ⟨.error .idMismatch, s2,
                        [.Get (buildLastVersionKey _id) (-1) (.ok ptr),
                          .Get ptr.Data (-1) (.ok old)]⟩) ∧
                  (oid.String = _id.String → ∀ err s3,
                    si.db.Put s2 ⟨ptr.Data, old.Data, _id.Version⟩ = (err, s3) →
                    si.Index flagDeleted s rnd _id doc
                      = ⟨resultOf err, s3,
                        [.Get (buildLastVersionKey _id) (-1) (.ok ptr),
                          .Get ptr.Data (-1) (.ok old),
                          .Put ⟨ptr.Data, old.Data, _id.Version⟩ err]⟩)))) := by
  constructor
  · intro e s1 hptr
    cases e <;> simp [sortIndex.Index, hptr, indexTail_deleted _ _ _ _ _ _ _ _ hflag]
  · intro ptr s1 hptr
    constructor
    · intro e s2 hold
      simp [sortIndex.Index, hptr, hold]
    · intro old s2 hold
      refine ⟨?_, ?_, ?_⟩
      · intro h0
        simp [sortIndex.Index, hptr, hold, h0, indexTail_deleted _ _ _ _ _ _ _ _ hflag]
      · intro h0 hp
        simp [sortIndex.Index, hptr, hold, h0, hp]
      · intro vs oid h0 hp
        constructor
        · intro hstr
          simp [sortIndex.Index, hptr, hold, h0, hp, hstr]
        · intro hstr err s3 hput
          cases err with
          | none =>
            simp [sortIndex.Index, hptr, hold, h0, hp, hstr, hput, resultOf,
              indexTail_deleted _ _ _ _ _ _ _ _ hflag]
          | some e =>
            simp [sortIndex.Index, hptr, hold, h0, hp, hstr, hput, resultOf]

theorem Index_deleted_frame_mem (flagDeleted : Nat) (fields : List String) (name : String)
    (m : MemVkv) (rnd : List Nat) (_id : ID) (doc : List (String × Value))
    (key : List Nat) (version : Int) (hflag : _id.Flag = flagDeleted)
    (hkey : ∀ ptr, m.Get (buildLastVersionKey _id) (-1) = .ok ptr → key ≠ ptr.Data) :
    ((⟨memSortDB, fields, name⟩ : sortIndex MemVkv).Index flagDeleted m rnd _id doc).store.Get
        key version = m.Get key version := by
  obtain ⟨hE, hO⟩ := Index_deleted_cases (⟨memSortDB, fields, name⟩ : sortIndex MemVkv)
    flagDeleted m rnd _id doc hflag
  cases hg : m.Get (buildLastVersionKey _id) (-1) with
  | error e =>
    rw [hE e m (by simp [memSortDB, hg])]
  | ok ptr =>
    obtain ⟨hOE, hOO⟩ := hO ptr m (by simp [memSortDB, hg])
    cases hg2 : m.Get ptr.Data (-1) with
    | error e =>
      rw [hOE e m (by simp [memSortDB, hg2])]
    | ok old =>
      obtain ⟨h1, h2, h3⟩ := hOO old m (by simp [memSortDB, hg2])
      by_cases h0 : old.Data.length = 0
      · rw [h1 h0]
      · cases hp : parseVal old.Data with
        | none => rw [h2 h0 hp]
        | some p =>
          obtain ⟨vs, oid⟩ := p
          obtain ⟨h4, h5⟩ := h3 vs oid h0 hp
          by_cases hstr : oid.String = _id.String
          · rw [h5 hstr none (m.Put ⟨ptr.Data, old.Data, _id.Version⟩) rfl]
            exact memGet_Put_other m _ key version (hkey ptr hg)
          · rw [h4 hstr]

theorem Index_deleted_puts {σ : Type} (si : sortIndex σ) (flagDeleted : Nat) (s : σ)
    (rnd : List Nat) (_id : ID) (doc : List (String × Value))
    (hflag : _id.Flag = flagDeleted) :
    ∀ kv err, DbEvent.Put kv err ∈ (si.Index flagDeleted s rnd _id doc).trace →
      ∃ ptr old, (si.Index flagDeleted s rnd _id doc).trace
          = [.Get (buildLastVersionKey _id) (-1) (.ok ptr), .Get ptr.Data (-1) (.ok old),
            .Put kv err] ∧
        kv = ⟨ptr.Data, old.Data, _id.Version⟩ ∧ old.Data.length ≠ 0 := by
  intro kv err hmem
  unfold sortIndex.Index at hmem ⊢
  rcases hptr : si.db.Get s (buildLastVersionKey _id) (-1) with ⟨e | ptr, s1⟩
  · cases e <;> simp [hptr, indexTail_deleted _ _ _ _ _ _ _ _ hflag] at hmem
  simp only [hptr] at hmem ⊢
  rcases hold : si.db.Get s1 ptr.Data (-1) with ⟨e | old, s2⟩
  · simp [hold] at hmem
  simp only [hold] at hmem ⊢
  by_cases hne : old.Data.length = 0
  · simp [hne, indexTail_deleted _ _ _ _ _ _ _ _ hflag] at hmem
  simp only [hne, if_false] at hmem ⊢
  cases hparse : parseVal old.Data with
  | none => simp [hparse] at hmem
  | some p =>
    obtain ⟨vs, oid⟩ := p
    simp only [hparse] at hmem ⊢
    by_cases hstr : oid.String = _id.String
    · simp only [hstr, ne_eq, not_true_eq_false, if_false] at hmem ⊢
      rcases hput : si.db.Put s2 ⟨ptr.Data, old.Data, _id.Version⟩ with ⟨_ | e, s3⟩
      · simp only [hput, indexTail_deleted _ _ _ _ _ _ _ _ hflag] at hmem ⊢
        simp at hmem
        exact ⟨ptr, old, by rw [hmem.1, hmem.2], hmem.1, hne⟩
      · simp only [hput] at hmem ⊢
        simp at hmem
        exact ⟨ptr, old, by rw [hmem.1, hmem.2], hmem.1, hne⟩
    · simp [hstr] at hmem

/-! ## The claims on `Index` -/

/-- C17: when the last-version pointer of the document id exists and the entry it names
has non-empty data that holds an id, then: if that id has the raw bytes of the given id,
the first write of `Index`, made after its two reads on the store they left, is a `Put`
under the forward key the pointer names, with the data of the entry unchanged and
`Version = _id.Version()`; when that `Put` fails its error is the result and the store is
the one it left, and when it succeeds the run goes on from the store it left: it stops
there for a deleted id, and otherwise writes the new forward key and then the pointer,
each on the store the write before left.  If the stored id differs, `Index` fails after
the two reads, leaves the store they left and makes no write. -/
theorem Index_rewrites_old_entry {σ : Type} (si : sortIndex σ) (flagDeleted : Nat)
    (s s1 s2 : σ) (rnd : List Nat) (_id : ID) (doc : List (String × Value))
    (ptr old : SortKv) (vs : Int) (oid : ID)
    (hptr : si.db.Get s (buildLastVersionKey _id) (-1) = (.ok ptr, s1))
    (hold : si.db.Get s1 ptr.Data (-1) = (.ok old, s2))
    (hne : old.Data.length ≠ 0)
    (hparse : parseVal old.Data = some (vs, oid))
    (hbo : ∀ b ∈ oid.Raw, b < 256) (hbi : ∀ b ∈ _id.Raw, b < 256) :
    (oid.Raw = _id.Raw →
        (∃ rest, (si.Index flagDeleted s rnd _id doc).trace
          = [.Get (buildLastVersionKey _id) (-1) (.ok ptr), .Get ptr.Data (-1) (.ok old),
              .Put ⟨ptr.Data, old.Data, _id.Version⟩
                (si.db.Put s2 ⟨ptr.Data, old.Data, _id.Version⟩).1] ++ rest) ∧
        ∀ err s3, si.db.Put s2 ⟨ptr.Data, old.Data, _id.Version⟩ = (err, s3) →
          (∀ e, err = some e →
            si.Index flagDeleted s rnd _id doc
              = ⟨.error e, s3,
                [.Get (buildLastVersionKey _id) (-1) (.ok ptr), .Get ptr.Data (-1) (.ok old),
                  .Put ⟨ptr.Data, old.Data, _id.Version⟩ (some e)]⟩) ∧
          (err = none →
            (_id.Flag = flagDeleted →
              si.Index flagDeleted s rnd _id doc
                = ⟨.ok (), s3,
                  [.Get (buildLastVersionKey _id) (-1) (.ok ptr),
                    .Get ptr.Data (-1) (.ok old),
                    .Put ⟨ptr.Data, old.Data, _id.Version⟩ none]⟩) ∧
            (_id.Flag ≠ flagDeleted → si.fields = [] →
              si.Index flagDeleted s rnd _id doc
                = ⟨.error (.panic "index out of range"), s3,
                  [.Get (buildLastVersionKey _id) (-1) (.ok ptr),
                    .Get ptr.Data (-1) (.ok old),
                    .Put ⟨ptr.Data, old.Data, _id.Version⟩ none]⟩) ∧
            (∀ field0 fs, _id.Flag ≠ flagDeleted → si.fields = field0 :: fs →
              (∀ e, buildKey (if field0 = "_updated" then Value.int64 _id.Version
                    else (doc.lookup field0).getD Value.other) rnd = .error e →
                si.Index flagDeleted s rnd _id doc
                  = ⟨.error e, s3,
                    [.Get (buildLastVersionKey _id) (-1) (.ok ptr),
                      .Get ptr.Data (-1) (.ok old),
                      .Put ⟨ptr.Data, old.Data, _id.Version⟩ none]⟩) ∧
              (∀ sortKey err1 s4,
                buildKey (if field0 = "_updated" then Value.int64 _id.Version
                    else (doc.lookup field0).getD Value.other) rnd = .ok sortKey →
                si.db.Put s3 ⟨sortKey, buildVal _id.Version _id, _id.Version⟩ = (err1, s4) →
                (∀ e, err1 = some e →
                  si.Index flagDeleted s rnd _id doc
                    = ⟨.error e, s4,
                      [.Get (buildLastVersionKey _id) (-1) (.ok ptr),
                        .Get ptr.Data (-1) (.ok old),
                        .Put ⟨ptr.Data, old.Data, _id.Version⟩ none]
                      ++ [.Put ⟨sortKey, buildVal _id.Version _id, _id.Version⟩ (some e)]⟩) ∧
                (err1 = none → ∀ err2 s5,
                  si.db.Put s4 ⟨buildLastVersionKey _id, sortKey, 0⟩ = (err2, s5) →
                  si.Index flagDeleted s rnd _id doc
                    = ⟨resultOf err2, s5,
                      [.Get (buildLastVersionKey _id) (-1) (.ok ptr),
                        .Get ptr.Data (-1) (.ok old),
                        .Put ⟨ptr.Data, old.Data, _id.Version⟩ none]
                      ++ [.Put ⟨sortKey, buildVal _id.Version _id, _id.Version⟩ none,
                        .Put ⟨buildLastVersionKey _id, sortKey, 0⟩ err2]⟩))))) ∧
      (oid.Raw ≠ _id.Raw →
        (si.Index flagDeleted s rnd _id doc).result = .error .idMismatch ∧
          (si.Index flagDeleted s rnd _id doc).store = s2 ∧
          (si.Index flagDeleted s rnd _id doc).trace
            = [.Get (buildLastVersionKey _id) (-1) (.ok ptr),
                .Get ptr.Data (-1) (.ok old)]) := by
  constructor
  · intro hsame
    have hstr : oid.String = _id.String := (idString_eq_iff oid _id hbo hbi).2 hsame
    constructor
    · simp only [sortIndex.Index, hptr, hold, hne, if_false, hparse, hstr, ne_eq,
        not_true_eq_false]
      rcases hput : si.db.Put s2 ⟨ptr.Data, old.Data, _id.Version⟩ with ⟨_ | e, s3⟩
      · simp only
        obtain ⟨rest, hrest⟩ := indexTail_trace si flagDeleted s3 rnd _id doc
          (buildLastVersionKey _id)
          [.Get (buildLastVersionKey _id) (-1) (.ok ptr), .Get ptr.Data (-1) (.ok old),
            .Put ⟨ptr.Data, old.Data, _id.Version⟩ none]
        exact ⟨rest, hrest⟩
      · exact ⟨[], rfl⟩
    · intro err s3 hput
      constructor
      · intro e he
        subst he
        simp [sortIndex.Index, hptr, hold, hne, hparse, hstr, hput]
      · intro he
        subst he
        have hrun : si.Index flagDeleted s rnd _id doc
            = si.indexTail flagDeleted s3 rnd _id doc (buildLastVersionKey _id)
              [.Get (buildLastVersionKey _id) (-1) (.ok ptr), .Get ptr.Data (-1) (.ok old),
                .Put ⟨ptr.Data, old.Data, _id.Version⟩ none] := by
          simp [sortIndex.Index, hptr, hold, hne, hparse, hstr, hput]
        rw [hrun]
        exact indexTail_cases si flagDeleted s3 rnd _id doc (buildLastVersionKey _id) _
  · intro hdiff
    have hstr : oid.String ≠ _id.String :=
      fun h => hdiff ((idString_eq_iff oid _id hbo hbi).1 h)
    simp [sortIndex.Index, hptr, hold, hne, hparse, hstr]

/-- Witness of C17: `d1`, indexed at version 1, is indexed again at version 2 with
field 3: the run is the two reads, the rewrite of the old entry at version 2, the write
of the new forward key and the write of the pointer, and it leaves the store of
scenario D. -/
theorem Index_rewrites_old_entry_witness :
    demoIndex.Index 1 storeD1 [8, 8, 8, 8, 8] ⟨d1, 0, 2, ""⟩ [("f", .int 3)]
      = ⟨.ok (), storeD,
        [.Get [118, 58, 1, 1, 1, 1, 1, 1, 1, 1, 1, 1, 1, 1] (-1)
            (.ok ⟨[118, 58, 1, 1, 1, 1, 1, 1, 1, 1, 1, 1, 1, 1],
              [107, 58, 0, 0, 0, 0, 0, 0, 0, 5, 0, 7, 7, 7, 7, 7], 0⟩),
          .Get [107, 58, 0, 0, 0, 0, 0, 0, 0, 5, 0, 7, 7, 7, 7, 7] (-1)
            (.ok ⟨[107, 58, 0, 0, 0, 0, 0, 0, 0, 5, 0, 7, 7, 7, 7, 7],
              [0, 0, 0, 0, 0, 0, 0, 1, 1, 1, 1, 1, 1, 1, 1, 1, 1, 1, 1, 1], 1⟩),
          .Put ⟨[107, 58, 0, 0, 0, 0, 0, 0, 0, 5, 0, 7, 7, 7, 7, 7],
              [0, 0, 0, 0, 0, 0, 0, 1, 1, 1, 1, 1, 1, 1, 1, 1, 1, 1, 1, 1], 2⟩ none,
          .Put ⟨[107, 58, 0, 0, 0, 0, 0, 0, 0, 3, 0, 8, 8, 8, 8, 8],
              [0, 0, 0, 0, 0, 0, 0, 2, 1, 1, 1, 1, 1, 1, 1, 1, 1, 1, 1, 1], 2⟩ none,
          .Put ⟨[118, 58, 1, 1, 1, 1, 1, 1, 1, 1, 1, 1, 1, 1],
              [107, 58, 0, 0, 0, 0, 0, 0, 0, 3, 0, 8, 8, 8, 8, 8], 0⟩ none]⟩ :=
  have h := (Index_rewrites_old_entry demoIndex 1 storeD1 storeD1 storeD1 [8, 8, 8, 8, 8]
    ⟨d1, 0, 2, ""⟩ [("f", .int 3)]
    ⟨[118, 58, 1, 1, 1, 1, 1, 1, 1, 1, 1, 1, 1, 1],
      [107, 58, 0, 0, 0, 0, 0, 0, 0, 5, 0, 7, 7, 7, 7, 7], 0⟩
    ⟨[107, 58, 0, 0, 0, 0, 0, 0, 0, 5, 0, 7, 7, 7, 7, 7],
      [0, 0, 0, 0, 0, 0, 0, 1, 1, 1, 1, 1, 1, 1, 1, 1, 1, 1, 1, 1], 1⟩
    1 (FromRaw d1) (by decide) (by decide) (by decide) (by decide) (by decide)
    (by decide)).1 (by decide)
  have h3 := (h.2 none
    (storeD1.Put ⟨[107, 58, 0, 0, 0, 0, 0, 0, 0, 5, 0, 7, 7, 7, 7, 7],
      [0, 0, 0, 0, 0, 0, 0, 1, 1, 1, 1, 1, 1, 1, 1, 1, 1, 1, 1, 1], 2⟩) (by decide)).2 rfl
  have h4 := (h3.2.2 "f" [] (by decide) rfl).2
    [107, 58, 0, 0, 0, 0, 0, 0, 0, 3, 0, 8, 8, 8, 8, 8] none
    ((storeD1.Put ⟨[107, 58, 0, 0, 0, 0, 0, 0, 0, 5, 0, 7, 7, 7, 7, 7],
      [0, 0, 0, 0, 0, 0, 0, 1, 1, 1, 1, 1, 1, 1, 1, 1, 1, 1, 1, 1], 2⟩).Put
      ⟨[107, 58, 0, 0, 0, 0, 0, 0, 0, 3, 0, 8, 8, 8, 8, 8],
        [0, 0, 0, 0, 0, 0, 0, 2, 1, 1, 1, 1, 1, 1, 1, 1, 1, 1, 1, 1], 2⟩)
    (by decide) (by decide)
  h4.2 rfl none storeD (by decide)

/-- C18: for a document id whose flag is the deleted value, `Index` stops after the
tombstone step.  On any store the run is: the read of the last-version pointer; when it
is found, the read of the entry it names; and, when that entry has non-empty data that
holds the id, one `Put` that rewrites it at `_id.Version()`, applied to the store the
reads left.  The store `Index` leaves is the one that last call left, so no new forward
key and no last-version pointer is written, and every `Put` of the run is that rewrite.
On the in-memory store every key other than the forward key the pointer names reads as
before at every version.  After indexing `d2` at version 1 (field 7) and at version 2
with the deleted flag, `Iter` with `asOf = 0` returns nothing and with `asOf = 1`
returns `d2` at version 1. -/
theorem Index_deleted_stops {σ : Type} (si : sortIndex σ) (flagDeleted : Nat) (s : σ)
    (rnd : List Nat) (_id : ID) (doc : List (String × Value))
    (hflag : _id.Flag = flagDeleted) :
    (∀ e s1, si.db.Get s (buildLastVersionKey _id) (-1) = (.error e, s1) →
        si.Index flagDeleted s rnd _id doc
          = ⟨if e = .ErrNotFound then .ok () else .error e, s1,
            [.Get (buildLastVersionKey _id) (-1) (.error e)]⟩) ∧
      (∀ ptr s1, si.db.Get s (buildLastVersionKey _id) (-1) = (.ok ptr, s1) →
        (∀ e s2, si.db.Get s1 ptr.Data (-1) = (.error e, s2) →
            si.Index flagDeleted s rnd _id doc
              = ⟨.error e, s2, [.Get (buildLastVersionKey _id) (-1) (.ok ptr),
                .Get ptr.Data (-1) (.error e)]⟩) ∧
          (∀ old s2, si.db.Get s1 ptr.Data (-1) = (.ok old, s2) →
            (old.Data.length = 0 →
                si.Index flagDeleted s rnd _id doc
                  = ⟨.ok (), s2, [.Get (buildLastVersionKey _id) (-1) (.ok ptr),
                    .Get ptr.Data (-1) (.ok old)]⟩) ∧
              (old.Data.length ≠ 0 → parseVal old.Data = none →
                si.Index flagDeleted s rnd _id doc
                  = ⟨.error (.panic "slice bounds out of range"), s2,
                    [.Get (buildLastVersionKey _id) (-1) (.ok ptr),
                      .Get ptr.Data (-1) (.ok old)]⟩) ∧
              (∀ vs oid, old.Data.length ≠ 0 → parseVal old.Data = some (vs, oid) →
                (oid.String ≠ _id.String →
                    si.Index flagDeleted s rnd _id doc
                      = ⟨.error .idMismatch, s2,
                        [.Get (buildLastVersionKey _id) (-1) (.ok ptr),
                          .Get ptr.Data (-1) (.ok old)]⟩) ∧
                  (oid.String = _id.String → ∀ err s3,
                    si.db.Put s2 ⟨ptr.Data, old.Data, _id.Version⟩ = (err, s3) →
                    si.Index flagDeleted s rnd _id doc
                      = ⟨resultOf err, s3,
                        [.Get (buildLastVersionKey _id) (-1) (.ok ptr),
                          .Get ptr.Data (-1) (.ok old),
                          .Put ⟨ptr.Data, old.Data, _id.Version⟩ err]⟩)))) ∧
      (∀ kv err, DbEvent.Put kv err ∈ (si.Index flagDeleted s rnd _id doc).trace →
        ∃ ptr old, (si.Index flagDeleted s rnd _id doc).trace
            = [.Get (buildLastVersionKey _id) (-1) (.ok ptr), .Get ptr.Data (-1) (.ok old),
              .Put kv err] ∧
          kv = ⟨ptr.Data, old.Data, _id.Version⟩ ∧ old.Data.length ≠ 0) ∧
      (∀ (fields : List String) (name : String) (m : MemVkv) (key : List Nat)
          (version : Int),
        (∀ ptr, m.Get (buildLastVersionKey _id) (-1) = .ok ptr → key ≠ ptr.Data) →
        ((⟨memSortDB, fields, name⟩ : sortIndex MemVkv).Index flagDeleted m rnd _id
            doc).store.Get key version = m.Get key version) ∧
      idsOf (demoIndex.Iter demoEnv storeE "" "" 10 0) = some [] ∧
      idsOf (demoIndex.Iter demoEnv storeE "" "" 10 1) = some [(d2, 1)] := by
  obtain ⟨h1, h2⟩ := Index_deleted_cases si flagDeleted s rnd _id doc hflag
  refine ⟨h1, h2, Index_deleted_puts si flagDeleted s rnd _id doc hflag, ?_, by decide,
    by decide⟩
  intro fields name m key version hkey
  exact Index_deleted_frame_mem flagDeleted fields name m rnd _id doc key version hflag hkey

/-- Witness of C18: the deleted `d2` at version 2, indexed over the store that holds
`d2` at version 1 (`storeE1`): two reads, the rewrite of the entry at version 2, and the store of
scenario E, in which the last-version pointer still names the same forward key. -/
theorem Index_deleted_stops_witness :
    demoIndex.Index 1 storeE1 [8, 8, 8, 8, 8] ⟨d2, 1, 2, ""⟩ []
      = ⟨.ok (), storeE,
        [.Get [118, 58, 2, 2, 2, 2, 2, 2, 2, 2, 2, 2, 2, 2] (-1)
            (.ok ⟨[118, 58, 2, 2, 2, 2, 2, 2, 2, 2, 2, 2, 2, 2],
              [107, 58, 0, 0, 0, 0, 0, 0, 0, 7, 0, 7, 7, 7, 7, 7], 0⟩),
          .Get [107, 58, 0, 0, 0, 0, 0, 0, 0, 7, 0, 7, 7, 7, 7, 7] (-1)
            (.ok ⟨[107, 58, 0, 0, 0, 0, 0, 0, 0, 7, 0, 7, 7, 7, 7, 7],
              [0, 0, 0, 0, 0, 0, 0, 1, 2, 2, 2, 2, 2, 2, 2, 2, 2, 2, 2, 2], 1⟩),
          .Put ⟨[107, 58, 0, 0, 0, 0, 0, 0, 0, 7, 0, 7, 7, 7, 7, 7],
              [0, 0, 0, 0, 0, 0, 0, 1, 2, 2, 2, 2, 2, 2, 2, 2, 2, 2, 2, 2], 2⟩ none]⟩ ∧
      storeE.Get [118, 58, 2, 2, 2, 2, 2, 2, 2, 2, 2, 2, 2, 2] (-1)
        = .ok ⟨[118, 58, 2, 2, 2, 2, 2, 2, 2, 2, 2, 2, 2, 2],
            [107, 58, 0, 0, 0, 0, 0, 0, 0, 7, 0, 7, 7, 7, 7, 7], 0⟩ :=
  have h := ((Index_deleted_stops demoIndex 1 storeE1 [8, 8, 8, 8, 8] ⟨d2, 1, 2, ""⟩ []
    rfl).2.1
    ⟨[118, 58, 2, 2, 2, 2, 2, 2, 2, 2, 2, 2, 2, 2],
      [107, 58, 0, 0, 0, 0, 0, 0, 0, 7, 0, 7, 7, 7, 7, 7], 0⟩ storeE1 (by decide)).2
    ⟨[107, 58, 0, 0, 0, 0, 0, 0, 0, 7, 0, 7, 7, 7, 7, 7],
      [0, 0, 0, 0, 0, 0, 0, 1, 2, 2, 2, 2, 2, 2, 2, 2, 2, 2, 2, 2], 1⟩ storeE1 (by decide)
  ⟨(h.2.2 1 (FromRaw d2) (by decide) (by decide)).2 (by decide) none storeE (by decide),
    by decide⟩

/-! ## Lemmas on `fetchDir` -/

theorem heightList_append (a b : List Node) :
    heightList (a ++ b) = max (heightList a) (heightList b) := by
  induction a with
  | nil => simp [heightList]
  | cons x a ih => simp [heightList, ih, Nat.max_assoc]

theorem height_setChildren (n : Node) (c : List Node) :
    (n.setChildren c).height = 1 + heightList c := by
  cases n
  simp [Node.setChildren, Node.height]

theorem height_of_no_children (n : Node) (h : n.Children = []) : n.height = 1 := by
  cases n
  simp only [Node.Children] at h
  simp [Node.height, h, heightList]

theorem nodeByRef_children (ft : FileTreeExt) (hash : String) (cn : Node)
    (h : ft.nodeByRef hash = .ok cn) : cn.Children = [] := by
  unfold FileTreeExt.nodeByRef at h
  cases hb : ft.blobStoreGet hash with
  | error e => simp [hb] at h
  | ok blob =>
    simp only [hb] at h
    cases hm : ft.NewMetaFromBlob hash blob with
    | error e => simp [hm] at h
    | ok m =>
      simp only [hm, Except.ok.injEq] at h
      rw [← h]
      rfl

theorem fetchRefs_returns (ft : FileTreeExt) (recur : Node → Option (Node × Option FtErr))
    (B : Nat)
    (hrec : ∀ cn, cn.Children = [] → ∃ cn' e, recur cn = some (cn', e) ∧ cn'.height ≤ B)
    (refs : List Json) (children : List Node) (hc : heightList children ≤ B) :
    ∃ cs e, ft.fetchRefs recur refs children = some (cs, e) ∧ heightList cs ≤ B := by
  induction refs generalizing children with
  | nil => exact ⟨children, none, rfl, hc⟩
  | cons ref rest ih =>
    cases ref with
    | str hash =>
      simp only [FileTreeExt.fetchRefs]
      cases hn : ft.nodeByRef hash with
      | error err => exact ⟨children, some err, rfl, hc⟩
      | ok cn =>
        obtain ⟨cn', e, hr, hh⟩ := hrec cn (nodeByRef_children ft hash cn hn)
        have hc' : heightList (children ++ [cn']) ≤ B := by
          rw [heightList_append]
          simp only [heightList, Nat.max_zero]
          exact Nat.max_le.2 ⟨hc, hh⟩
        simp only [hr]
        cases e with
        | some err => exact ⟨_, _, rfl, hc'⟩
        | none => exact ih _ hc'
    | null => exact ⟨children, _, rfl, hc⟩
    | bool b => exact ⟨children, _, rfl, hc⟩
    | num k => exact ⟨children, _, rfl, hc⟩
    | arr xs => exact ⟨children, _, rfl, hc⟩
    | obj kvs => exact ⟨children, _, rfl, hc⟩

theorem fetchDir_returns (ft : FileTreeExt) :
    ∀ (fuel : Nat) (n : Node) (depth : Int), (10 - depth).toNat ≤ fuel →
      ∃ n' err, ft.fetchDir fuel n depth = some (n', err) ∧
        (n.Children = [] → n'.height ≤ 1 + (10 - depth).toNat) := by
  intro fuel
  induction fuel with
  | zero =>
    intro n depth hfuel
    have hd : depth ≥ 10 := by omega
    refine ⟨n, none, by simp [FileTreeExt.fetchDir, FileTreeExt.fetchDirBody, hd], ?_⟩
    intro hc
    rw [height_of_no_children n hc]
    omega
  | succ fuel ih =>
    intro n depth hfuel
    by_cases hd : depth ≥ 10
    · refine ⟨n, none, by simp [FileTreeExt.fetchDir, FileTreeExt.fetchDirBody, hd], ?_⟩
      intro hc
      rw [height_of_no_children n hc]
      omega
    · by_cases ht : n.NodeType = "dir"
      · have hrec : ∀ cn : Node, cn.Children = [] →
            ∃ cn' e, (fun cn => ft.fetchDir fuel cn (depth + 1)) cn = some (cn', e) ∧
              cn'.height ≤ (10 - depth).toNat := by
          intro cn hcn
          obtain ⟨cn', e, h1, h2⟩ := ih cn (depth + 1) (by omega)
          refine ⟨cn', e, h1, ?_⟩
          have := h2 hcn
          omega
        obtain ⟨cs, e, hcs, hh⟩ := fetchRefs_returns ft _ _ hrec n.nodeMeta.Refs []
          (by simp [heightList])
        refine ⟨n.setChildren cs, e, ?_, ?_⟩
        · simp only [FileTreeExt.fetchDir, FileTreeExt.fetchDirBody, hd, if_false, ht, if_true,
            hcs]
        · intro _
          rw [height_setChildren]
          omega
      · refine ⟨n, none, by simp [FileTreeExt.fetchDir, FileTreeExt.fetchDirBody, hd, ht], ?_⟩
        intro hc
        rw [height_of_no_children n hc]
        omega

theorem fetchDir_fuel_succ (ft : FileTreeExt) :
    ∀ (fuel : Nat) (n : Node) (depth : Int), (10 - depth).toNat ≤ fuel →
      ft.fetchDir (fuel + 1) n depth = ft.fetchDir fuel n depth := by
  intro fuel
  induction fuel with
  | zero =>
    intro n depth hfuel
    have hd : depth ≥ 10 := by omega
    simp [FileTreeExt.fetchDir, FileTreeExt.fetchDirBody, hd]
  | succ fuel ih =>
    intro n depth hfuel
    by_cases hd : depth ≥ 10
    · simp [FileTreeExt.fetchDir, FileTreeExt.fetchDirBody, hd]
    · have hfun : (fun cn => ft.fetchDir (fuel + 1) cn (depth + 1))
          = (fun cn => ft.fetchDir fuel cn (depth + 1)) :=
        funext (fun cn => ih cn (depth + 1) (by omega))
      show ft.fetchDirBody (fun cn d => ft.fetchDir (fuel + 1) cn d) n depth
        = ft.fetchDirBody (fun cn d => ft.fetchDir fuel cn d) n depth
      simp only [FileTreeExt.fetchDirBody, hd, if_false, hfun]

theorem fetchDir_fuel_irrelevant (ft : FileTreeExt) (n : Node) (depth : Int) :
    ∀ k : Nat, ft.fetchDir ((10 - depth).toNat + k) n depth
      = ft.fetchDir (10 - depth).toNat n depth
  | 0 => rfl
  | k + 1 => by
    rw [← Nat.add_assoc, fetchDir_fuel_succ ft _ n depth (Nat.le_add_right _ _)]
    exact fetchDir_fuel_irrelevant ft n depth k

/-! ## The claim on `fetchDir` -/

/-- C19: on every blob store `fetchDir` returns: with room for `10 - depth` nested
calls it yields a result, the same for any larger allowance; a node reached at depth 10
or more is returned as it is, no child fetched; and for a node given without children
the tree returned has at most `1 + (10 - depth)` levels, 10 when started at depth 1.
On the cyclic blob store, whose directory refers to itself, the call at depth 1 returns
a tree of 10 levels and no error. -/
theorem fetchDir_terminates (ft : FileTreeExt) (n : Node) (depth : Int) (fuel : Nat)
    (hfuel : (10 - depth).toNat ≤ fuel) :
    (∃ n' err, ft.fetchDir fuel n depth = some (n', err) ∧
        (n.Children = [] → n'.height ≤ 1 + (10 - depth).toNat)) ∧
      ft.fetchDir fuel n depth = ft.fetchDir (10 - depth).toNat n depth ∧
      (10 ≤ depth → ft.fetchDir fuel n depth = some (n, none)) ∧
      (cyclicTree.fetchDir 9
          (metaToNode ⟨"loop", "dir", 0, 0, "", "h", [.str "h"], [], []⟩) 1).map
        (fun r => (r.1.height, r.2)) = some (10, none) := by
  refine ⟨fetchDir_returns ft fuel n depth hfuel, ?_, ?_, by decide⟩
  · obtain ⟨k, hk⟩ := Nat.exists_eq_add_of_le hfuel
    rw [hk]
    exact fetchDir_fuel_irrelevant ft n depth k
  · intro hd
    cases fuel <;> simp [FileTreeExt.fetchDir, FileTreeExt.fetchDirBody, hd]

/-- Witness of C19: the cyclic blob store, started at depth 1 with room for 9 nested
calls. -/
theorem fetchDir_terminates_witness :
    ∃ n' err,
      cyclicTree.fetchDir 9 (metaToNode ⟨"loop", "dir", 0, 0, "", "h", [.str "h"], [], []⟩) 1
        = some (n', err) ∧
      ((metaToNode ⟨"loop", "dir", 0, 0, "", "h", [.str "h"], [], []⟩).Children = [] →
        n'.height ≤ 1 + ((10 : Int) - 1).toNat) :=
  (fetchDir_terminates cyclicTree
    (metaToNode ⟨"loop", "dir", 0, 0, "", "h", [.str "h"], [], []⟩) 1 9 (by decide)).1

end Blobstash
